import Mathlib

/-!
Verification of the MuckRock `dc_batch_upload` batch uploader
(`batch_upload.py`) against its natural-language specification.

The sqlite progress ledger, the CSV metadata scan, the three remote upload
phases, the worker loop of `upload_files_dc`, and the reconciliation sweep
of `reupload_error_files` are shallowly embedded as executable Lean
functions.  Remote calls and per-item transfer results are passed in as
explicit outcome parameters, since the network is external to the program.
-/

namespace BatchUpload

/-- One row of the sqlite `documents` table:
`(document_number TEXT UNIQUE, uploaded INTEGER, error INTEGER, error_msg TEXT)`.
The `document_number` key is kept outside, in the association list. -/
structure Entry where
  uploaded : Bool
  error : Nat
  error_msg : String
deriving Repr, DecidableEq

/-- The `documents` table, keyed by `document_number`.  The UNIQUE
constraint means keys are not duplicated; insertion order is kept. -/
abbrev DB := List (String × Entry)

/-- Row lookup by `document_number` (first match). -/
def DB.find : DB → String → Option Entry
  | [], _ => none
  | p :: rest, k' => if p.1 = k' then some p.2 else DB.find rest k'

/-- Apply `f` to the row keyed `k` (all matches; under UNIQUE at most one). -/
def DB.setEntry (db : DB) (k : String) (f : Entry → Entry) : DB :=
  db.map (fun p => if p.1 = k then (p.1, f p.2) else p)

/-- The `error` column of an identifier's row, 0 when the row is absent. -/
def DB.errorCount (db : DB) (k : String) : Nat :=
  ((db.find k).map Entry.error).getD 0

/-- The `uploaded` column of an identifier's row, false when absent. -/
def DB.completed (db : DB) (k : String) : Bool :=
  ((db.find k).map Entry.uploaded).getD false

/-- The failure upsert issued throughout the script:
`INSERT INTO documents VALUES(?, 0, 1, ?) ON CONFLICT (document_number)
DO UPDATE SET error=error+1, error_msg=excluded.error_msg`. -/
def DB.failUpsert (db : DB) (k : String) (msg : String) : DB :=
  if (db.find k).isSome then
    db.setEntry k (fun e => { e with error := e.error + 1, error_msg := msg })
  else
    db ++ [(k, ⟨false, 1, msg⟩)]

/-- The success upsert of `process_documents`:
`INSERT INTO documents VALUES(?, 1, 0, ?) ON CONFLICT (document_number)
DO UPDATE SET uploaded=excluded.uploaded` (upserted row is `(k, 1, 0, "")`). -/
def DB.successUpsert (db : DB) (k : String) : DB :=
  if (db.find k).isSome then
    db.setEntry k (fun e => { e with uploaded := true })
  else
    db ++ [(k, ⟨true, 0, ""⟩)]

/-- The reconciliation write
`UPDATE documents SET error = error + 1 WHERE document_number = ?`
(updates an existing row only; inserts nothing). -/
def DB.errorIncr (db : DB) (k : String) : DB :=
  db.setEntry k (fun e => { e with error := e.error + 1 })

/-- The reconciliation write
`UPDATE documents SET uploaded = 1 WHERE document_number = ?`. -/
def DB.markUploaded (db : DB) (k : String) : DB :=
  db.setEntry k (fun e => { e with uploaded := true })

/-- Every kind of ledger write the script ever issues. -/
inductive LedgerOp
  | fail (docNum msg : String)
  | success (docNum : String)
  | reconErrorIncr (docNum : String)
  | reconMarkUploaded (docNum : String)
deriving Repr, DecidableEq

/-- Apply one ledger write. -/
def LedgerOp.apply : LedgerOp → DB → DB
  | .fail k msg, db => db.failUpsert k msg
  | .success k, db => db.successUpsert k
  | .reconErrorIncr k, db => db.errorIncr k
  | .reconMarkUploaded k, db => db.markUploaded k

theorem DB.find_setEntry_self (db : DB) (k : String) (f : Entry → Entry) :
    (db.setEntry k f).find k = (db.find k).map f := by
  induction db with
  | nil => rfl
  | cons p rest ih =>
    by_cases h : p.1 = k
    · simp [DB.setEntry, DB.find, h]
    · simp only [DB.setEntry, List.map_cons, if_neg h]
      simp only [DB.find, if_neg h]
      exact ih

theorem DB.find_setEntry_ne (db : DB) (k k' : String) (f : Entry → Entry)
    (h : k ≠ k') : (db.setEntry k f).find k' = db.find k' := by
  induction db with
  | nil => rfl
  | cons p rest ih =>
    by_cases h0 : p.1 = k
    · have h1 : p.1 ≠ k' := by rw [h0]; exact h
      simp only [DB.setEntry, List.map_cons, if_pos h0]
      simp only [DB.find, if_neg h1]
      exact ih
    · simp only [DB.setEntry, List.map_cons, if_neg h0]
      by_cases h1 : p.1 = k'
      · simp [DB.find, h1]
      · simp only [DB.find, if_neg h1]
        exact ih

theorem DB.find_append (db db' : DB) (k : String) :
    DB.find (db ++ db') k = ((db.find k).orElse (fun _ => db'.find k)) := by
  induction db with
  | nil => simp [DB.find]
  | cons p rest ih =>
    by_cases h : p.1 = k
    · simp [DB.find, h]
    · simpa [DB.find, h] using ih

theorem DB.find_failUpsert_self (db : DB) (k msg : String) :
    (db.failUpsert k msg).find k =
      some (match db.find k with
            | some e => { e with error := e.error + 1, error_msg := msg }
            | none => ⟨false, 1, msg⟩) := by
  unfold DB.failUpsert
  cases h : db.find k with
  | some e =>
    simp [h, DB.find_setEntry_self]
  | none =>
    simp [h, DB.find_append, DB.find]

theorem DB.find_failUpsert_ne (db : DB) (k msg k' : String) (h : k ≠ k') :
    (db.failUpsert k msg).find k' = db.find k' := by
  unfold DB.failUpsert
  cases h0 : db.find k with
  | some e =>
    simp [h0, DB.find_setEntry_ne _ _ _ _ h]
  | none =>
    simp only [h0, Option.isSome_none, Bool.false_eq_true, if_false]
    rw [DB.find_append]
    cases h1 : db.find k' with
    | some e => simp
    | none => simp [DB.find, h]

theorem DB.errorCount_failUpsert_self (db : DB) (k msg : String) :
    (db.failUpsert k msg).errorCount k = db.errorCount k + 1 := by
  unfold DB.errorCount
  rw [DB.find_failUpsert_self]
  cases h : db.find k <;> simp [h]

theorem DB.completed_failUpsert_self (db : DB) (k msg : String) :
    (db.failUpsert k msg).completed k = db.completed k := by
  unfold DB.completed
  rw [DB.find_failUpsert_self]
  cases h : db.find k <;> simp [h]

theorem DB.errorCount_failUpsert_ne (db : DB) (k msg k' : String) (h : k ≠ k') :
    (db.failUpsert k msg).errorCount k' = db.errorCount k' := by
  unfold DB.errorCount
  rw [DB.find_failUpsert_ne _ _ _ _ h]

theorem DB.find_successUpsert_self (db : DB) (k : String) :
    (db.successUpsert k).find k =
      some (match db.find k with
            | some e => { e with uploaded := true }
            | none => ⟨true, 0, ""⟩) := by
  unfold DB.successUpsert
  cases h : db.find k with
  | some e => simp [h, DB.find_setEntry_self]
  | none => simp [h, DB.find_append, DB.find]

theorem DB.find_successUpsert_ne (db : DB) (k k' : String) (h : k ≠ k') :
    (db.successUpsert k).find k' = db.find k' := by
  unfold DB.successUpsert
  cases h0 : db.find k with
  | some e =>
    simp [h0, DB.find_setEntry_ne _ _ _ _ h]
  | none =>
    simp only [h0, Option.isSome_none, Bool.false_eq_true, if_false]
    rw [DB.find_append]
    cases h1 : db.find k' with
    | some e => simp
    | none => simp [DB.find, h]

theorem DB.completed_successUpsert_self (db : DB) (k : String) :
    (db.successUpsert k).completed k = true := by
  unfold DB.completed
  rw [DB.find_successUpsert_self]
  cases h : db.find k <;> simp [h]

/-! Python-level exceptions relevant to the script.  `api` stands for the
`(APIError, RequestException)` pair that the script's handlers catch;
everything else falls through to the generic `except Exception` catch-all
(or, for `unboundLocal`, kills the thread). -/

inductive PyExc
  | valueError (what : String)
  | keyError (key : String)
  | indexError
  | unboundLocal
  | api (s : String)
  | other (s : String)
deriving Repr, DecidableEq

/-- Whether `except (APIError, RequestException)` catches this exception. -/
def PyExc.isApi : PyExc → Bool
  | .api _ => true
  | _ => false

/-- The `str(exc)` text written into `error_msg` by the handlers. -/
def PyExc.msg : PyExc → String
  | .valueError w => w
  | .keyError key => key
  | .indexError => "list index out of range"
  | .unboundLocal => "local variable referenced before assignment"
  | .api s => s
  | .other s => s

/-- The command-line arguments the embedded functions read. -/
structure Args where
  project_id : Int
  path : String
  id_col : String
  num_threads : Nat
  batch_size : Nat
  db_name : String
  access : String
  source : String
deriving Repr, DecidableEq

/-- One upload dictionary as built by `row_to_dict` and then mutated in
place by the phases (`id` and `presigned_url` are set by phase 1). -/
structure DocDict where
  title : String
  projects : List Int
  source : String
  access : String
  delayed_index : Bool
  data : List (String × String)
  id : Option Nat
  presigned_url : Option String
deriving Repr, DecidableEq

/-- Lookup in a Python dict modelled as an association list.  CSV header
names are assumed pairwise distinct, as Python dict keys are unique. -/
def assocFind : List (String × String) → String → Option String
  | [], _ => none
  | p :: rest, k => if p.1 = k then some p.2 else assocFind rest k

/-- Python `dict.pop(k)`: the removed value and the remaining dict, or
`none` (a `KeyError`) when the key is absent. -/
def assocPop : List (String × String) → String → Option (String × List (String × String))
  | [], _ => none
  | p :: rest, k =>
    if p.1 = k then some (p.2, rest)
    else (assocPop rest k).map (fun q => (q.1, p :: q.2))

/-- The value `d["data"][id_col]` used as the ledger key.  Every dict that
reaches a phase has the id column in `data` (checked by the `print` in
`get_files_from_queue`), so the default is never observed there. -/
def DocDict.docNum (d : DocDict) (id_col : String) : String :=
  (assocFind d.data id_col).getD ""

/-- `row_to_dict`: builds the upload dictionary from a CSV row; raises
`KeyError` when the popped `title` column is absent from the header. -/
def row_to_dict (args : Args) (headers : List String) (row : List String) :
    Except PyExc DocDict :=
  match assocPop (List.zip headers row) "title" with
  | none => .error (.keyError "title")
  | some q =>
    .ok { title := q.1, projects := [args.project_id], source := args.source,
          access := args.access, delayed_index := true, data := q.2,
          id := none, presigned_url := none }

/-- `id_col_index`: `self.headers.index(self.args.id_col)`; a missing
column is a `ValueError`. -/
def id_col_index (headers : List String) (id_col : String) : Except PyExc Nat :=
  match headers.indexOf? id_col with
  | some i => .ok i
  | none => .error (.valueError id_col)

/-- `get_documents_uploaded`: `SELECT document_number FROM documents` —
every row's key, regardless of the `uploaded` column. -/
def get_documents_uploaded (db : DB) : List String :=
  db.map Prod.fst

/-- `get_new_files`: scans the CSV rows after the header, yielding each row
whose id-column value is not among `uploaded_docs`.  `id_col_index` is
evaluated per row, so a missing id column raises only when a data row is
reached; `row[idx]` on a short row is an `IndexError`. -/
def get_new_files (args : Args) (headers : List String) (rows : List (List String))
    (uploaded_docs : List String) : Except PyExc (List (List String)) :=
  match rows with
  | [] => .ok []
  | row :: rest =>
    match id_col_index headers args.id_col with
    | .error e => .error e
    | .ok idx =>
      match row.get? idx with
      | none => .error .indexError
      | some v =>
        match get_new_files args headers rest uploaded_docs with
        | .error e => .error e
        | .ok out => .ok (if uploaded_docs.contains v then out else row :: out)

/-- The in-place mutation of the zip loop at the end of `create_documents`:
each dict receives its positionally matched remote id and presigned url
(dicts beyond the response's length are left untouched). -/
def createdDicts (pairs : List (Nat × String)) (doc_dicts : List DocDict) :
    List DocDict :=
  List.zipWith (fun p d => { d with id := some p.1, presigned_url := some p.2 })
    pairs doc_dicts
  ++ doc_dicts.drop pairs.length

/-- Phase 1, `create_documents`.  The bulk-create response is an input:
on success, one `(id, presigned_url)` pair per item, matched positionally
(the zip loop mutates each dict in place).  On an `(APIError,
RequestException)` failure every item gets the failure upsert and the
exception re-raises; any other exception propagates with no ledger write. -/
def create_documents (args : Args) (resp : Except PyExc (List (Nat × String)))
    (doc_dicts : List DocDict) (db : DB) : Except PyExc (List DocDict) × DB :=
  match resp with
  | .error e =>
    if e.isApi then
      (.error e,
       doc_dicts.foldl (fun db d => db.failUpsert (d.docNum args.id_col) e.msg) db)
    else
      (.error e, db)
  | .ok pairs =>
    (.ok (createdDicts pairs doc_dicts), db)

/-- Phase 2, `upload_files_s3`.  `responses` are the results of
`asyncio.gather(..., return_exceptions=True)`, one per dict: `some s` is an
exception with text `s`, `none` a success.  Returns the id strings passed
on to phase 3, the updated ledger, and the bulk-delete calls issued
(best-effort; their outcome changes nothing here). -/
def upload_files_s3 (id_col : String) (doc_dicts : List DocDict)
    (responses : List (Option String)) (db : DB) :
    List String × DB × List (List String) :=
  let pairs := List.zip responses doc_dicts
  let process_json :=
    (pairs.filter (fun p => p.1.isNone)).map (fun p => toString (p.2.id.getD 0))
  let error_data :=
    (pairs.filter (fun p => p.1.isSome)).map
      (fun p => (p.2.docNum id_col, p.1.getD ""))
  let db' := error_data.foldl (fun db q => db.failUpsert q.1 q.2) db
  let error_ids :=
    (pairs.filter (fun p => p.1.isSome)).map (fun p => toString (p.2.id.getD 0))
  (process_json, db', if error_ids.isEmpty then [] else [error_ids])

/-- Phase 3, `process_documents`.  With no surviving ids it returns at
once.  On an api failure it records every dict whose id string is in
`doc_ids`, attempts one best-effort bulk delete of `doc_ids`, and
re-raises; on success it records success for the same dicts. -/
def process_documents (id_col : String) (resp : Except PyExc Unit)
    (doc_ids : List String) (doc_dicts : List DocDict) (db : DB) :
    Except PyExc Unit × DB × List (List String) :=
  if doc_ids.isEmpty then (.ok (), db, [])
  else
    match resp with
    | .error e =>
      if e.isApi then
        let items := doc_dicts.filter (fun d => doc_ids.contains (toString (d.id.getD 0)))
        (.error e,
         items.foldl (fun db d => db.failUpsert (d.docNum id_col) e.msg) db,
         [doc_ids])
      else
        (.error e, db, [])
    | .ok _ =>
      let items := doc_dicts.filter (fun d => doc_ids.contains (toString (d.id.getD 0)))
      (.ok (),
       items.foldl (fun db d => db.successUpsert (d.docNum id_col)) db,
       [])

/-! The work queue and the worker loop `upload_files_dc`. -/

/-- An element of the bounded queue: a CSV row or the `SENTINEL` object. -/
inductive QItem
  | row (r : List String)
  | sent
deriving Repr, DecidableEq

/-- Result of one (non-blocking) run of `get_files_from_queue`:
the converted batch with the finished flag and the remaining queue, a
raised Python exception with the remaining queue (rows consumed before the
raise are lost), or `blocked` when `queue.get()` would block. -/
inductive GetResult
  | ok (batch : List DocDict) (finished : Bool) (rest : List QItem)
  | raise (e : PyExc) (rest : List QItem)
  | blocked
deriving Repr, DecidableEq

/-- The `print` in `get_files_from_queue` evaluates
`d["data"][self.args.id_col]` for every collected dict; a dict lacking the
id column raises `KeyError` there. -/
def printCheck (id_col : String) (batch : List DocDict) : Option PyExc :=
  if batch.all (fun d => (assocFind d.data id_col).isSome) then none
  else some (.keyError id_col)

/-- The collection loop of `get_files_from_queue`: up to `batch_size` gets,
stopping early at the sentinel; each row is converted by `row_to_dict`,
whose exception propagates. -/
def getFilesLoop (args : Args) (headers : List String) :
    Nat → List QItem → List DocDict → GetResult
  | 0, queue, acc =>
    match printCheck args.id_col acc with
    | some e => .raise e queue
    | none => .ok acc false queue
  | _ + 1, [], _ => .blocked
  | _ + 1, QItem.sent :: rest, acc =>
    match printCheck args.id_col acc with
    | some e => .raise e rest
    | none => .ok acc true rest
  | n + 1, QItem.row r :: rest, acc =>
    match row_to_dict args headers r with
    | .error e => .raise e rest
    | .ok d => getFilesLoop args headers n rest (acc ++ [d])

/-- `get_files_from_queue`. -/
def get_files_from_queue (args : Args) (headers : List String)
    (queue : List QItem) : GetResult :=
  getFilesLoop args headers args.batch_size queue []

/-- The local variables of a worker that the `except Exception` catch-all
and the end-of-loop check read: the *last assigned* values of `doc_dicts`
and `finished`, `none` before the first assignment (reading them then is
an `UnboundLocalError`). -/
structure WLocals where
  doc_dicts : Option (List DocDict)
  finished : Option Bool
deriving Repr, DecidableEq

/-- Status of one worker thread. -/
inductive WStatus
  | alive (loc : WLocals)
  | terminated
  | crashed (e : PyExc)
deriving Repr, DecidableEq

/-- Observable result of one pass through the `while True` body:
the worker's new status, the queue, the ledger, and the bulk-delete calls
issued; or `blocked` when the pass cannot start to completion. -/
inductive IterOut
  | step (w : WStatus) (queue : List QItem) (db : DB) (deletes : List (List String))
  | blocked
deriving Repr, DecidableEq

/-- The end-of-iteration check `if finished or event.is_set(): ...` of
`upload_files_dc`.  Reading an unassigned `finished` is an
`UnboundLocalError` that kills the thread.  On exit with the event set the
worker drains (empties) the queue; otherwise it puts the sentinel back. -/
def finishedCheck (loc : WLocals) (event : Bool) (queue : List QItem)
    (db : DB) (dels : List (List String)) : IterOut :=
  match loc.finished with
  | none => .step (.crashed .unboundLocal) queue db dels
  | some fin =>
    if fin || event then
      if event then .step .terminated [] db dels
      else .step .terminated (queue ++ [QItem.sent]) db dels
    else .step (.alive loc) queue db dels

/-- One pass through the body of the worker loop `upload_files_dc`, with
the remote outcomes of this pass given in `out`.  The
`except (APIError, RequestException)` arm passes; the `except Exception`
catch-all records a failure for every dict in the *current binding* of
`doc_dicts` — the previous batch when the exception was raised inside
`get_files_from_queue` before the assignment completed. -/
structure Outcomes where
  createResp : Except PyExc (List (Nat × String))
  s3Resps : List (Option String)
  processResp : Except PyExc Unit
deriving Repr

def worker_iter (args : Args) (headers : List String) (loc : WLocals)
    (event : Bool) (out : Outcomes) (queue : List QItem) (db : DB) : IterOut :=
  match get_files_from_queue args headers queue with
  | .blocked => .blocked
  | .raise e rest =>
    if e.isApi then
      finishedCheck loc event rest db []
    else
      match loc.doc_dicts with
      | none => .step (.crashed .unboundLocal) rest db []
      | some stale =>
        finishedCheck loc event rest
          (stale.foldl (fun db d => db.failUpsert (d.docNum args.id_col) e.msg) db) []
  | .ok batch fin rest =>
    if batch.isEmpty then
      .step .terminated (rest ++ [QItem.sent]) db []
    else
      match create_documents args out.createResp batch db with
      | (.error e, db1) =>
        let loc1 : WLocals := ⟨some batch, some fin⟩
        if e.isApi then
          finishedCheck loc1 event rest db1 []
        else
          finishedCheck loc1 event rest
            (batch.foldl (fun db d => db.failUpsert (d.docNum args.id_col) e.msg) db1) []
      | (.ok batch1, db1) =>
        let loc1 : WLocals := ⟨some batch1, some fin⟩
        match upload_files_s3 args.id_col batch1 out.s3Resps db1 with
        | (process_json, db2, dels1) =>
          match process_documents args.id_col out.processResp process_json batch1 db2 with
          | (.error e, db3, dels2) =>
            if e.isApi then
              finishedCheck loc1 event rest db3 (dels1 ++ dels2)
            else
              finishedCheck loc1 event rest
                (batch1.foldl (fun db d => db.failUpsert (d.docNum args.id_col) e.msg) db3)
                (dels1 ++ dels2)
          | (.ok _, db3, dels2) =>
            finishedCheck loc1 event rest db3 (dels1 ++ dels2)

/-! Concrete instances used to evaluate the embedded functions. -/

/-- A concrete argument set (defaults of `parse_arguments`). -/
def args0 : Args :=
  ⟨1, "pdfs", "document_number", 1, 25, "batch.db", "private", ""⟩

/-- A ledger holding one row written only by the failure upsert:
`(doc1, uploaded=0, error=1, error_msg="err")`. -/
def dbFail1 : DB := [("doc1", ⟨false, 1, "err"⟩)]

/-! Lemmas about the ledger writes. -/

theorem DB.completed_failUpsert (db : DB) (k msg k' : String) :
    (db.failUpsert k msg).completed k' = db.completed k' := by
  by_cases h : k = k'
  · subst h; exact db.completed_failUpsert_self k msg
  · unfold DB.completed
    rw [DB.find_failUpsert_ne _ _ _ _ h]

theorem DB.errorCount_successUpsert (db : DB) (k k' : String) :
    (db.successUpsert k).errorCount k' = db.errorCount k' := by
  by_cases h : k = k'
  · subst h
    unfold DB.errorCount
    rw [DB.find_successUpsert_self]
    cases h0 : db.find k <;> simp [h0]
  · unfold DB.errorCount
    rw [DB.find_successUpsert_ne _ _ _ h]

theorem DB.completed_successUpsert_mono (db : DB) (k k' : String)
    (h : db.completed k' = true) : (db.successUpsert k).completed k' = true := by
  by_cases h0 : k = k'
  · subst h0; exact db.completed_successUpsert_self k
  · unfold DB.completed
    rw [DB.find_successUpsert_ne _ _ _ h0]
    exact h

theorem DB.errorCount_errorIncr_le (db : DB) (k k' : String) :
    db.errorCount k' ≤ (db.errorIncr k).errorCount k' := by
  by_cases h : k = k'
  · subst h
    unfold DB.errorCount DB.errorIncr
    rw [DB.find_setEntry_self]
    cases h0 : db.find k <;> simp [h0]
  · unfold DB.errorCount DB.errorIncr
    rw [DB.find_setEntry_ne _ _ _ _ h]

theorem DB.completed_errorIncr (db : DB) (k k' : String) :
    (db.errorIncr k).completed k' = db.completed k' := by
  by_cases h : k = k'
  · subst h
    unfold DB.completed DB.errorIncr
    rw [DB.find_setEntry_self]
    cases h0 : db.find k <;> simp [h0]
  · unfold DB.completed DB.errorIncr
    rw [DB.find_setEntry_ne _ _ _ _ h]

theorem DB.errorCount_markUploaded (db : DB) (k k' : String) :
    (db.markUploaded k).errorCount k' = db.errorCount k' := by
  by_cases h : k = k'
  · subst h
    unfold DB.errorCount DB.markUploaded
    rw [DB.find_setEntry_self]
    cases h0 : db.find k <;> simp [h0]
  · unfold DB.errorCount DB.markUploaded
    rw [DB.find_setEntry_ne _ _ _ _ h]

theorem DB.completed_markUploaded_mono (db : DB) (k k' : String)
    (h : db.completed k' = true) : (db.markUploaded k).completed k' = true := by
  by_cases h0 : k = k'
  · subst h0
    unfold DB.completed DB.markUploaded at *
    rw [DB.find_setEntry_self]
    cases h1 : db.find k with
    | none => rw [h1] at h; simp at h
    | some e => simp [h1]
  · unfold DB.completed DB.markUploaded
    rw [DB.find_setEntry_ne _ _ _ _ h0]
    exact h

/-- The `executemany` of the failure upsert over a list of
`(document_number, error_msg)` rows. -/
def DB.failMany (db : DB) (items : List (String × String)) : DB :=
  items.foldl (fun db q => db.failUpsert q.1 q.2) db

/-- The `executemany` of the success upsert over a list of keys. -/
def DB.successMany (db : DB) (ks : List String) : DB :=
  ks.foldl DB.successUpsert db

theorem DB.find_failMany_notMem (items : List (String × String)) (db : DB)
    (k : String) (h : k ∉ items.map Prod.fst) :
    (db.failMany items).find k = db.find k := by
  induction items generalizing db with
  | nil => rfl
  | cons q rest ih =>
    simp only [List.map_cons, List.mem_cons, not_or] at h
    show ((db.failUpsert q.1 q.2).failMany rest).find k = db.find k
    rw [ih _ h.2, DB.find_failUpsert_ne _ _ _ _ (fun hh => h.1 hh.symm)]

theorem DB.errorCount_failMany (items : List (String × String)) (db : DB)
    (k : String) :
    (db.failMany items).errorCount k
      = db.errorCount k + (items.map Prod.fst).count k := by
  induction items generalizing db with
  | nil => rfl
  | cons q rest ih =>
    show ((db.failUpsert q.1 q.2).failMany rest).errorCount k = _
    rw [ih]
    by_cases h : q.1 = k
    · subst h
      rw [DB.errorCount_failUpsert_self]
      simp [List.count_cons]
      omega
    · rw [DB.errorCount_failUpsert_ne _ _ _ _ h]
      simp [List.count_cons, h]

theorem DB.completed_failMany (items : List (String × String)) (db : DB)
    (k : String) : (db.failMany items).completed k = db.completed k := by
  induction items generalizing db with
  | nil => rfl
  | cons q rest ih =>
    show ((db.failUpsert q.1 q.2).failMany rest).completed k = _
    rw [ih, DB.completed_failUpsert]

theorem DB.find_successMany_notMem (ks : List String) (db : DB)
    (k : String) (h : k ∉ ks) :
    (db.successMany ks).find k = db.find k := by
  induction ks generalizing db with
  | nil => rfl
  | cons k0 rest ih =>
    simp only [List.mem_cons, not_or] at h
    show ((db.successUpsert k0).successMany rest).find k = db.find k
    rw [ih _ h.2, DB.find_successUpsert_ne _ _ _ (fun hh => h.1 hh.symm)]

theorem DB.errorCount_successMany (ks : List String) (db : DB) (k : String) :
    (db.successMany ks).errorCount k = db.errorCount k := by
  induction ks generalizing db with
  | nil => rfl
  | cons k0 rest ih =>
    show ((db.successUpsert k0).successMany rest).errorCount k = _
    rw [ih, DB.errorCount_successUpsert]

theorem DB.completed_successMany_mono (ks : List String) (db : DB) (k : String)
    (h : db.completed k = true) : (db.successMany ks).completed k = true := by
  induction ks generalizing db with
  | nil => exact h
  | cons k0 rest ih =>
    exact ih _ (db.completed_successUpsert_mono k0 k h)

theorem DB.completed_successMany_mem (ks : List String) (db : DB) (k : String)
    (h : k ∈ ks) : (db.successMany ks).completed k = true := by
  induction ks generalizing db with
  | nil => cases h
  | cons k0 rest ih =>
    rcases List.mem_cons.mp h with h0 | h0
    · subst h0
      exact DB.completed_successMany_mono rest _ k (db.completed_successUpsert_self k)
    · exact ih (db.successUpsert k0) h0

/-- Applying a sequence of ledger writes in order. -/
def applyOps (ops : List LedgerOp) (db : DB) : DB :=
  ops.foldl (fun db op => op.apply db) db

theorem errorCount_le_apply (op : LedgerOp) (db : DB) (k : String) :
    db.errorCount k ≤ (op.apply db).errorCount k := by
  cases op with
  | fail k0 msg =>
    show db.errorCount k ≤ (db.failUpsert k0 msg).errorCount k
    by_cases h : k0 = k
    · subst h
      rw [DB.errorCount_failUpsert_self]
      omega
    · rw [DB.errorCount_failUpsert_ne _ _ _ _ h]
  | success k0 =>
    show db.errorCount k ≤ (db.successUpsert k0).errorCount k
    rw [DB.errorCount_successUpsert]
  | reconErrorIncr k0 =>
    exact db.errorCount_errorIncr_le k0 k
  | reconMarkUploaded k0 =>
    show db.errorCount k ≤ (db.markUploaded k0).errorCount k
    rw [DB.errorCount_markUploaded]

theorem completed_apply_mono (op : LedgerOp) (db : DB) (k : String)
    (h : db.completed k = true) : (op.apply db).completed k = true := by
  cases op with
  | fail k0 msg =>
    show (db.failUpsert k0 msg).completed k = true
    rw [DB.completed_failUpsert]
    exact h
  | success k0 =>
    exact db.completed_successUpsert_mono k0 k h
  | reconErrorIncr k0 =>
    show (db.errorIncr k0).completed k = true
    rw [DB.completed_errorIncr]
    exact h
  | reconMarkUploaded k0 =>
    exact db.completed_markUploaded_mono k0 k h

/-- C6: every ledger write of the script leaves each identifier's
`error` column no smaller (so also along any sequence of writes), and the
failure upsert increments the written identifier's `error` by exactly 1
(creating the row with `error = 1` when absent).  The success upsert and
the reconciliation mark-uploaded write leave `error` unchanged — `error`
is in fact never reset at all, which the claim's exception clause allows. -/
theorem errorCount_monotone :
    (∀ (op : LedgerOp) (db : DB) (k : String),
        db.errorCount k ≤ (op.apply db).errorCount k) ∧
    (∀ (ops : List LedgerOp) (db : DB) (k : String),
        db.errorCount k ≤ (applyOps ops db).errorCount k) ∧
    (∀ (db : DB) (k msg : String),
        ((LedgerOp.fail k msg).apply db).errorCount k = db.errorCount k + 1) ∧
    (∀ (db : DB) (k : String),
        ((LedgerOp.success k).apply db).errorCount k = db.errorCount k ∧
        ((LedgerOp.reconMarkUploaded k).apply db).errorCount k = db.errorCount k) := by
  refine ⟨errorCount_le_apply, ?_, ?_, ?_⟩
  · intro ops
    induction ops with
    | nil => intro db k; exact le_refl _
    | cons op rest ih =>
      intro db k
      exact le_trans (errorCount_le_apply op db k) (ih (op.apply db) k)
  · intro db k msg
    exact db.errorCount_failUpsert_self k msg
  · intro db k
    exact ⟨db.errorCount_successUpsert k k, db.errorCount_markUploaded k k⟩

/-- C10: once an identifier's row has `uploaded = 1`, no ledger write the
script issues ever sets it back to 0: the failure upsert's conflict arm
touches only `error` and `error_msg`, and the other writes only ever set
`uploaded` to 1.  Hence completion is permanent along any write sequence. -/
theorem completed_permanent :
    (∀ (op : LedgerOp) (db : DB) (k : String),
        db.completed k = true → (op.apply db).completed k = true) ∧
    (∀ (ops : List LedgerOp) (db : DB) (k : String),
        db.completed k = true → (applyOps ops db).completed k = true) := by
  refine ⟨completed_apply_mono, ?_⟩
  intro ops
  induction ops with
  | nil => intro db k h; exact h
  | cons op rest ih =>
    intro db k h
    exact ih (op.apply db) k (completed_apply_mono op db k h)

/-- Witness for `completed_permanent` at a concrete ledger and write. -/
theorem completed_permanent_witness :
    DB.completed [("a", ⟨true, 0, ""⟩)] "a" = true ∧
    DB.completed ((LedgerOp.fail "a" "m").apply [("a", ⟨true, 0, ""⟩)]) "a" = true :=
  ⟨by decide, completed_permanent.1 (LedgerOp.fail "a" "m") [("a", ⟨true, 0, ""⟩)] "a" (by decide)⟩

/-! Per-phase theorems. -/

theorem failMany_map_docNum (dicts : List DocDict) (id_col m : String) (db : DB) :
    DB.failMany db (dicts.map (fun d => (d.docNum id_col, m)))
      = dicts.foldl (fun db d => db.failUpsert (d.docNum id_col) m) db := by
  unfold DB.failMany
  rw [List.foldl_map]

theorem successMany_map_docNum (dicts : List DocDict) (id_col : String) (db : DB) :
    DB.successMany db (dicts.map (fun d => d.docNum id_col))
      = dicts.foldl (fun db d => db.successUpsert (d.docNum id_col)) db := by
  unfold DB.successMany
  rw [List.foldl_map]

theorem count_eq_one_of_nodup_filter_map {α β : Type} [DecidableEq β]
    (l : List α) (p : α → Bool) (f : α → β) (x : α)
    (hnd : (l.map f).Nodup) (hx : x ∈ l.filter p) :
    ((l.filter p).map f).count (f x) = 1 := by
  have hsub : ((l.filter p).map f).Sublist (l.map f) :=
    (List.filter_sublist l).map f
  have hle := hsub.count_le (f x)
  rw [List.count_eq_one_of_mem hnd
    (List.mem_map_of_mem f (List.mem_of_mem_filter hx))] at hle
  have hpos := List.count_pos_iff.mpr (List.mem_map_of_mem f hx)
  omega

/-- C3: in phase 2, each item of a batch is settled only by its own
transfer result: an item whose transfer result is not an exception has its
id string in the list passed to phase 3 and its ledger row untouched, and
an item whose transfer result is an exception has its `error` column
incremented by exactly 1 and its id string absent from that list —
independently of every other item's result. -/
theorem upload_files_s3_isolates_items (id_col : String)
    (doc_dicts : List DocDict) (responses : List (Option String)) (db : DB)
    (hlen : responses.length = doc_dicts.length)
    (hids : (doc_dicts.map (fun d => toString (d.id.getD 0))).Nodup)
    (hnums : (doc_dicts.map (fun d => d.docNum id_col)).Nodup)
    (p : Option String × DocDict) (hp : p ∈ responses.zip doc_dicts) :
    (p.1 = none →
      toString (p.2.id.getD 0) ∈ (upload_files_s3 id_col doc_dicts responses db).1 ∧
      DB.find (upload_files_s3 id_col doc_dicts responses db).2.1 (p.2.docNum id_col)
        = db.find (p.2.docNum id_col)) ∧
    (∀ m : String, p.1 = some m →
      DB.errorCount (upload_files_s3 id_col doc_dicts responses db).2.1 (p.2.docNum id_col)
        = db.errorCount (p.2.docNum id_col) + 1 ∧
      toString (p.2.id.getD 0) ∉ (upload_files_s3 id_col doc_dicts responses db).1) := by
  have hmapsnd : (responses.zip doc_dicts).map Prod.snd = doc_dicts :=
    List.map_snd_zip _ _ (le_of_eq hlen.symm)
  have hidsP : ((responses.zip doc_dicts).map
      (fun q => toString (q.2.id.getD 0))).Nodup := by
    have : ((responses.zip doc_dicts).map Prod.snd).map
        (fun d => toString (d.id.getD 0))
        = (responses.zip doc_dicts).map (fun q => toString (q.2.id.getD 0)) := by
      rw [List.map_map]
      rfl
    rw [← this, hmapsnd]
    exact hids
  have hnumsP : ((responses.zip doc_dicts).map (fun q => q.2.docNum id_col)).Nodup := by
    have : ((responses.zip doc_dicts).map Prod.snd).map (fun d => d.docNum id_col)
        = (responses.zip doc_dicts).map (fun q => q.2.docNum id_col) := by
      rw [List.map_map]
      rfl
    rw [← this, hmapsnd]
    exact hnums
  have hpj : (upload_files_s3 id_col doc_dicts responses db).1
      = ((responses.zip doc_dicts).filter (fun q => q.1.isNone)).map
          (fun q => toString (q.2.id.getD 0)) := rfl
  have hdb : (upload_files_s3 id_col doc_dicts responses db).2.1
      = DB.failMany db
          (((responses.zip doc_dicts).filter (fun q => q.1.isSome)).map
            (fun q => (q.2.docNum id_col, q.1.getD ""))) := rfl
  have hfst : ((((responses.zip doc_dicts).filter (fun q => q.1.isSome)).map
        (fun q => (q.2.docNum id_col, q.1.getD ""))).map Prod.fst)
      = ((responses.zip doc_dicts).filter (fun q => q.1.isSome)).map
          (fun q => q.2.docNum id_col) := by
    rw [List.map_map]
    rfl
  constructor
  · intro hnone
    constructor
    · rw [hpj]
      exact List.mem_map.mpr
        ⟨p, List.mem_filter.mpr ⟨hp, by rw [hnone]; rfl⟩, rfl⟩
    · rw [hdb]
      apply DB.find_failMany_notMem
      rw [hfst]
      intro hmem
      obtain ⟨q, hqF, hqEq⟩ := List.mem_map.mp hmem
      have hq : q ∈ responses.zip doc_dicts := List.mem_of_mem_filter hqF
      have hqs : q.1.isSome = true := (List.mem_filter.mp hqF).2
      have : q = p := List.inj_on_of_nodup_map hnumsP hq hp hqEq
      rw [this, hnone] at hqs
      cases hqs
  · intro m hsome
    have hpf : p ∈ (responses.zip doc_dicts).filter (fun q => q.1.isSome) :=
      List.mem_filter.mpr ⟨hp, by rw [hsome]; rfl⟩
    constructor
    · rw [hdb, DB.errorCount_failMany, hfst]
      rw [count_eq_one_of_nodup_filter_map (responses.zip doc_dicts)
        (fun q => q.1.isSome) (fun q => q.2.docNum id_col) p hnumsP hpf]
    · rw [hpj]
      intro hmem
      obtain ⟨q, hqF, hqEq⟩ := List.mem_map.mp hmem
      have hq : q ∈ responses.zip doc_dicts := List.mem_of_mem_filter hqF
      have hqn : q.1.isNone = true := (List.mem_filter.mp hqF).2
      have : q = p := List.inj_on_of_nodup_map hidsP hq hp hqEq
      rw [this, hsome] at hqn
      cases hqn

/-- Witness for `upload_files_s3_isolates_items` on a two-item batch whose
second transfer fails while the first succeeds. -/
theorem upload_files_s3_isolates_items_witness :
    "7" ∈ (upload_files_s3 "document_number"
      [{ title := "t1", projects := [1], source := "", access := "private",
         delayed_index := true, data := [("document_number", "doc1")],
         id := some 7, presigned_url := some "u1" },
       { title := "t2", projects := [1], source := "", access := "private",
         delayed_index := true, data := [("document_number", "doc2")],
         id := some 8, presigned_url := some "u2" }]
      [none, some "boom"] []).1 := by
  have h := (upload_files_s3_isolates_items "document_number"
    [{ title := "t1", projects := [1], source := "", access := "private",
       delayed_index := true, data := [("document_number", "doc1")],
       id := some 7, presigned_url := some "u1" },
     { title := "t2", projects := [1], source := "", access := "private",
       delayed_index := true, data := [("document_number", "doc2")],
       id := some 8, presigned_url := some "u2" }]
    [none, some "boom"] [] (by decide) (by decide) (by decide)
    (none, { title := "t1", projects := [1], source := "", access := "private",
             delayed_index := true, data := [("document_number", "doc1")],
             id := some 7, presigned_url := some "u1" })
    (by decide)).1 rfl
  exact h.1

/-- C5: in phase 3 with a nonempty surviving id list, an api failure of
the bulk-process call records a failure for each surviving item (each dict
whose id string was passed in), its `error` rising by exactly 1 and
`uploaded` untouched, issues one best-effort bulk delete of exactly the
passed ids, and re-raises the exception; on success each surviving item's
row gets `uploaded = 1`. -/
theorem process_documents_settles_survivors (id_col : String)
    (doc_ids : List String) (doc_dicts : List DocDict) (db : DB)
    (hne : doc_ids ≠ [])
    (hnodup : (doc_dicts.map (fun d => d.docNum id_col)).Nodup)
    (d : DocDict) (hd : d ∈ doc_dicts)
    (hsurv : doc_ids.contains (toString (d.id.getD 0)) = true) :
    (∀ e : PyExc, e.isApi = true →
      DB.errorCount (process_documents id_col (.error e) doc_ids doc_dicts db).2.1
          (d.docNum id_col)
        = db.errorCount (d.docNum id_col) + 1 ∧
      DB.completed (process_documents id_col (.error e) doc_ids doc_dicts db).2.1
          (d.docNum id_col)
        = db.completed (d.docNum id_col) ∧
      (process_documents id_col (.error e) doc_ids doc_dicts db).1 = .error e ∧
      (process_documents id_col (.error e) doc_ids doc_dicts db).2.2 = [doc_ids]) ∧
    DB.completed (process_documents id_col (.ok ()) doc_ids doc_dicts db).2.1
        (d.docNum id_col) = true := by
  have hie : doc_ids.isEmpty = false := by
    cases doc_ids with
    | nil => exact absurd rfl hne
    | cons a l => rfl
  have hdf : d ∈ doc_dicts.filter (fun d => doc_ids.contains (toString (d.id.getD 0))) :=
    List.mem_filter.mpr ⟨hd, hsurv⟩
  constructor
  · intro e he
    unfold process_documents
    simp only [hie, Bool.false_eq_true, if_false, he, if_pos]
    rw [← failMany_map_docNum]
    refine ⟨?_, ?_, by trivial, by trivial⟩
    · rw [DB.errorCount_failMany]
      have : ((doc_dicts.filter (fun d => doc_ids.contains (toString (d.id.getD 0)))).map
          (fun d => (d.docNum id_col, e.msg))).map Prod.fst
          = (doc_dicts.filter (fun d => doc_ids.contains (toString (d.id.getD 0)))).map
              (fun d => d.docNum id_col) := by
        rw [List.map_map]
        rfl
      rw [this, count_eq_one_of_nodup_filter_map doc_dicts _ _ _ hnodup hdf]
    · rw [DB.completed_failMany]
  · unfold process_documents
    simp only [hie, Bool.false_eq_true, if_false]
    rw [← successMany_map_docNum]
    exact DB.completed_successMany_mem _ _ _ (List.mem_map_of_mem _ hdf)

/-- Witness for `process_documents_settles_survivors` on a one-item batch. -/
theorem process_documents_settles_survivors_witness :
    DB.completed
      (process_documents "document_number" (.ok ()) ["7"]
        [{ title := "t", projects := [1], source := "", access := "private",
           delayed_index := true, data := [("document_number", "doc1")],
           id := some 7, presigned_url := some "u" }] []).2.1 "doc1" = true := by
  refine (process_documents_settles_survivors "document_number" ["7"]
    [{ title := "t", projects := [1], source := "", access := "private",
       delayed_index := true, data := [("document_number", "doc1")],
       id := some 7, presigned_url := some "u" }] []
    (by decide) (by decide) _ (List.mem_singleton.mpr rfl) (by decide)).2

theorem DB.find_failMany_of_nodup (items : List (String × String)) (db : DB)
    (num m : String) (hnd : (items.map Prod.fst).Nodup) (hmem : (num, m) ∈ items) :
    (db.failMany items).find num
      = some (match db.find num with
              | some e => { e with error := e.error + 1, error_msg := m }
              | none => ⟨false, 1, m⟩) := by
  induction items generalizing db with
  | nil => cases hmem
  | cons q rest ih =>
    have hnd' := List.nodup_cons.mp hnd
    rcases List.mem_cons.mp hmem with h0 | h0
    · subst h0
      show ((db.failUpsert num m).failMany rest).find num = _
      rw [DB.find_failMany_notMem _ _ _ hnd'.1, DB.find_failUpsert_self]
    · have hq1 : q.1 ≠ num := by
        intro hh
        exact hnd'.1 (hh ▸ List.mem_map_of_mem Prod.fst h0)
      show ((db.failUpsert q.1 q.2).failMany rest).find num = _
      rw [ih _ hnd'.2 h0, DB.find_failUpsert_ne _ _ _ _ hq1]

/-- C4: when the phase-1 bulk-create call fails with an
`(APIError, RequestException)` error, the worker's pass reduces to the
end-of-loop check over the ledger extended by exactly the phase-1 failure
upsert batch: no delete call is issued, the retained dicts are the batch
unchanged (so no remote id or presigned url was ever attached), phases 2
and 3 contribute nothing, and each batch item's row has `error` one
higher, `error_msg` equal to the error text, and `uploaded` untouched
(created as 0 when absent); identifiers outside the batch are untouched. -/
theorem phase1_failure_fails_whole_batch (args : Args) (headers : List String)
    (loc : WLocals) (event : Bool) (out : Outcomes) (queue : List QItem) (db : DB)
    (batch : List DocDict) (fin : Bool) (rest : List QItem) (e : PyExc)
    (hget : get_files_from_queue args headers queue = .ok batch fin rest)
    (hne : batch ≠ [])
    (he : e.isApi = true) (hcr : out.createResp = .error e)
    (hnodup : (batch.map (fun d => d.docNum args.id_col)).Nodup) :
    worker_iter args headers loc event out queue db
      = finishedCheck ⟨some batch, some fin⟩ event rest
          (DB.failMany db (batch.map (fun d => (d.docNum args.id_col, e.msg)))) [] ∧
    (∀ d ∈ batch,
      DB.find (DB.failMany db (batch.map (fun d => (d.docNum args.id_col, e.msg))))
          (d.docNum args.id_col)
        = some (match db.find (d.docNum args.id_col) with
                | some en => { en with error := en.error + 1, error_msg := e.msg }
                | none => ⟨false, 1, e.msg⟩) ∧
      DB.errorCount (DB.failMany db (batch.map (fun d => (d.docNum args.id_col, e.msg))))
          (d.docNum args.id_col)
        = db.errorCount (d.docNum args.id_col) + 1 ∧
      DB.completed (DB.failMany db (batch.map (fun d => (d.docNum args.id_col, e.msg))))
          (d.docNum args.id_col)
        = db.completed (d.docNum args.id_col)) ∧
    (∀ k, k ∉ batch.map (fun d => d.docNum args.id_col) →
      DB.find (DB.failMany db (batch.map (fun d => (d.docNum args.id_col, e.msg)))) k
        = db.find k) := by
  have hie : batch.isEmpty = false := by
    cases batch with
    | nil => exact absurd rfl hne
    | cons a l => rfl
  have hfst : ((batch.map (fun d => (d.docNum args.id_col, e.msg))).map Prod.fst)
      = batch.map (fun d => d.docNum args.id_col) := by
    rw [List.map_map]
    rfl
  refine ⟨?_, ?_, ?_⟩
  · unfold worker_iter
    rw [hget]
    simp only [hie, Bool.false_eq_true, if_false]
    unfold create_documents
    rw [hcr]
    simp only [he, if_pos]
    rw [failMany_map_docNum]
  · intro d hd
    refine ⟨?_, ?_, ?_⟩
    · exact DB.find_failMany_of_nodup _ _ _ _ (hfst ▸ hnodup)
        (List.mem_map_of_mem _ hd)
    · rw [DB.errorCount_failMany, hfst,
        List.count_eq_one_of_mem hnodup (List.mem_map_of_mem _ hd)]
    · rw [DB.completed_failMany]
  · intro k hk
    exact DB.find_failMany_notMem _ _ _ (by rw [hfst]; exact hk)

/-- Witness for `phase1_failure_fails_whole_batch`: one dequeued row, the
bulk create failing with an api error. -/
theorem phase1_failure_fails_whole_batch_witness :
    DB.errorCount
      (DB.failMany []
        ([({ title := "t1", projects := [1], source := "", access := "private",
             delayed_index := true, data := [("document_number", "doc1")],
             id := none, presigned_url := none } : DocDict)].map
          (fun d => (d.docNum "document_number", (PyExc.api "boom").msg))))
      "doc1" = 0 + 1 := by
  have h := (phase1_failure_fails_whole_batch
    { args0 with batch_size := 1 } ["document_number", "title"]
    ⟨none, none⟩ false
    ⟨.error (.api "boom"), [], .ok ()⟩ [QItem.row ["doc1", "t1"]] []
    [{ title := "t1", projects := [1], source := "", access := "private",
       delayed_index := true, data := [("document_number", "doc1")],
       id := none, presigned_url := none }] false [] (.api "boom")
    rfl (by decide) rfl rfl (by decide)).2.1
    { title := "t1", projects := [1], source := "", access := "private",
      delayed_index := true, data := [("document_number", "doc1")],
      id := none, presigned_url := none } (List.mem_singleton.mpr rfl)
  exact h.2.1

/-- C1: the claim says `get_documents_uploaded` returns exactly the
identifiers with `completed = true`, so that an identifier recorded only by
`record_failure` is retried on a re-run.  The code instead runs
`SELECT document_number FROM documents` with no `WHERE uploaded = 1`
filter: on a ledger whose only row is a failure entry for `doc1`
(`uploaded = 0`), it returns `{doc1}`, and `get_new_files` therefore
excludes `doc1`'s CSV row from the re-run — contradicting the claim, the
spec, and the function's own docstring ("documents already uploaded"). -/
theorem get_documents_uploaded_ignores_uploaded_column :
    get_documents_uploaded dbFail1 = ["doc1"] ∧
    DB.completed dbFail1 "doc1" = false ∧
    get_new_files args0 ["document_number", "title"]
        [["doc1", "t1"], ["doc2", "t2"]] (get_documents_uploaded dbFail1)
      = .ok [["doc2", "t2"]] := by
  refine ⟨rfl, rfl, rfl⟩

/-! Claim C2: what the catch-all of `upload_files_dc` records. -/

/-- A dict from a previous, already settled batch (CSV row `[a1, t]`). -/
def dictA : DocDict :=
  { title := "t", projects := [1], source := "", access := "private",
    delayed_index := true, data := [("document_number", "a1")],
    id := none, presigned_url := none }

/-- C2 counterexample: a worker whose previous batch was `[a1]` dequeues
the short row `[b1]`; `row_to_dict` raises `KeyError` inside
`get_files_from_queue` before `doc_dicts` is reassigned, so the catch-all
records a failure against `a1` — an item of the *previous* batch — while
the dequeued item `b1` receives no outcome at all, and the worker then
continues as if nothing happened. -/
theorem catchall_misattributes_on_dequeue_error :
    worker_iter args0 ["document_number", "title"] ⟨some [dictA], some false⟩
        false ⟨.ok [], [], .ok ()⟩ [QItem.row ["b1"]] []
      = .step (.alive ⟨some [dictA], some false⟩) []
          [("a1", ⟨false, 1, "title"⟩)] [] ∧
    DB.find [("a1", ⟨false, 1, "title"⟩)] "b1" = none ∧
    DB.errorCount [("a1", ⟨false, 1, "title"⟩)] "a1" = 1 := by
  refine ⟨rfl, rfl, rfl⟩

theorem finishedCheck_exists_step (loc : WLocals) (event : Bool)
    (queue : List QItem) (db : DB) (dels : List (List String)) :
    ∃ w q', finishedCheck loc event queue db dels = .step w q' db dels := by
  unfold finishedCheck
  cases loc.finished with
  | none => exact ⟨_, _, rfl⟩
  | some fin => cases fin <;> cases event <;> exact ⟨_, _, rfl⟩

theorem map_docNum_createdDicts (id_col : String) (pairs : List (Nat × String))
    (dicts : List DocDict) :
    (createdDicts pairs dicts).map (fun d => d.docNum id_col)
      = dicts.map (fun d => d.docNum id_col) := by
  induction pairs generalizing dicts with
  | nil => simp [createdDicts]
  | cons p ps ih =>
    cases dicts with
    | nil => rfl
    | cons d ds =>
      have hih := ih ds
      simp only [createdDicts] at hih ⊢
      simp only [List.zipWith_cons_cons, List.length_cons, List.drop_succ_cons,
        List.cons_append, List.map_cons]
      rw [hih]
      rfl

theorem isEmpty_eq_false_of_ne_nil {α : Type} (l : List α) (h : l ≠ []) :
    l.isEmpty = false := by
  cases l with
  | nil => exact absurd rfl h
  | cons a t => rfl

/-- Reduction of a worker pass whose batch construction succeeded and whose
phase-1 call succeeded: the pass runs phases 2 and 3 and ends at the
end-of-loop check. -/
theorem worker_iter_phases (args : Args) (headers : List String)
    (loc : WLocals) (event : Bool) (out : Outcomes) (queue : List QItem)
    (db : DB) (batch : List DocDict) (fin : Bool) (rest : List QItem)
    (pairs : List (Nat × String))
    (hget : get_files_from_queue args headers queue = .ok batch fin rest)
    (hie : batch.isEmpty = false)
    (hcr : out.createResp = .ok pairs) :
    worker_iter args headers loc event out queue db
      = (match process_documents args.id_col out.processResp
            (upload_files_s3 args.id_col (createdDicts pairs batch) out.s3Resps db).1
            (createdDicts pairs batch)
            (upload_files_s3 args.id_col (createdDicts pairs batch) out.s3Resps db).2.1 with
         | (.error e, db3, dels2) =>
           if e.isApi then
             finishedCheck ⟨some (createdDicts pairs batch), some fin⟩ event rest db3
               ((upload_files_s3 args.id_col (createdDicts pairs batch) out.s3Resps db).2.2
                 ++ dels2)
           else
             finishedCheck ⟨some (createdDicts pairs batch), some fin⟩ event rest
               ((createdDicts pairs batch).foldl
                 (fun db d => db.failUpsert (d.docNum args.id_col) e.msg) db3)
               ((upload_files_s3 args.id_col (createdDicts pairs batch) out.s3Resps db).2.2
                 ++ dels2)
         | (.ok _, db3, dels2) =>
           finishedCheck ⟨some (createdDicts pairs batch), some fin⟩ event rest db3
             ((upload_files_s3 args.id_col (createdDicts pairs batch) out.s3Resps db).2.2
               ++ dels2)) := by
  unfold worker_iter
  rw [hget, hcr]
  simp only [hie, Bool.false_eq_true, if_false]
  rfl

/-- C2 as amended: when the uncategorized exception escapes one of the
remote phase calls of a successfully constructed batch (a non-api
exception from the phase-1 call, or from the phase-3 call when at least
one item survived phase 2), the worker's pass completes with every item of
that batch recorded as failed (its `error` strictly increased),
identifiers outside the batch untouched, and no `uploaded` flag changed.
The original claim fails when the exception arises during batch
construction itself (see the counterexample): the dequeued rows then get
no outcome and the previous batch's items are re-recorded. -/
theorem worker_catchall_settles_constructed_batch (args : Args)
    (headers : List String) (loc : WLocals) (event : Bool) (out : Outcomes)
    (queue : List QItem) (db : DB) (batch : List DocDict) (fin : Bool)
    (rest : List QItem) (e : PyExc)
    (hget : get_files_from_queue args headers queue = .ok batch fin rest)
    (hne : batch ≠ []) (he : e.isApi = false)
    (hu : out.createResp = .error e ∨
      (∃ pairs, out.createResp = .ok pairs ∧ out.processResp = .error e ∧
        (upload_files_s3 args.id_col (createdDicts pairs batch) out.s3Resps db).1 ≠ [])) :
    ∃ w q' db' dels,
      worker_iter args headers loc event out queue db = .step w q' db' dels ∧
      (∀ d ∈ batch, db.errorCount (d.docNum args.id_col)
        < DB.errorCount db' (d.docNum args.id_col)) ∧
      (∀ k, k ∉ batch.map (fun d => d.docNum args.id_col) →
        DB.find db' k = db.find k) ∧
      (∀ k, DB.completed db' k = db.completed k) := by
  have hie : batch.isEmpty = false := isEmpty_eq_false_of_ne_nil batch hne
  rcases hu with hcr | ⟨pairs, hcr, hproc, hpne⟩
  · obtain ⟨w, q', hfc⟩ := finishedCheck_exists_step ⟨some batch, some fin⟩ event rest
      (batch.foldl (fun db d => db.failUpsert (d.docNum args.id_col) e.msg) db) []
    have hfst : ((batch.map (fun d => (d.docNum args.id_col, e.msg))).map Prod.fst)
        = batch.map (fun d => d.docNum args.id_col) := by
      rw [List.map_map]
      rfl
    refine ⟨w, q',
      DB.failMany db (batch.map (fun d => (d.docNum args.id_col, e.msg))), [],
      ?_, ?_, ?_, ?_⟩
    · unfold worker_iter
      rw [hget, hcr]
      simp only [hie, Bool.false_eq_true, if_false, create_documents, he]
      rw [failMany_map_docNum]
      exact hfc
    · intro d hd
      rw [DB.errorCount_failMany, hfst]
      have hc : 0 < (batch.map (fun d => d.docNum args.id_col)).count
          (d.docNum args.id_col) :=
        List.count_pos_iff.mpr (List.mem_map_of_mem _ hd)
      omega
    · intro k hk
      exact DB.find_failMany_notMem _ _ _ (by rw [hfst]; exact hk)
    · intro k
      rw [DB.completed_failMany]
  · have hnum1 : (createdDicts pairs batch).map (fun d => d.docNum args.id_col)
        = batch.map (fun d => d.docNum args.id_col) :=
      map_docNum_createdDicts args.id_col pairs batch
    have hpie : (upload_files_s3 args.id_col (createdDicts pairs batch)
        out.s3Resps db).1.isEmpty = false := isEmpty_eq_false_of_ne_nil _ hpne
    have hs3db : (upload_files_s3 args.id_col (createdDicts pairs batch)
          out.s3Resps db).2.1
        = DB.failMany db
            (((out.s3Resps.zip (createdDicts pairs batch)).filter
                (fun q => q.1.isSome)).map
              (fun q => (q.2.docNum args.id_col, q.1.getD ""))) := rfl
    have herrfst : ((((out.s3Resps.zip (createdDicts pairs batch)).filter
          (fun q => q.1.isSome)).map
            (fun q => (q.2.docNum args.id_col, q.1.getD ""))).map Prod.fst)
        = ((out.s3Resps.zip (createdDicts pairs batch)).filter
            (fun q => q.1.isSome)).map (fun q => q.2.docNum args.id_col) := by
      rw [List.map_map]
      rfl
    have herrsub : ∀ k, k ∉ batch.map (fun d => d.docNum args.id_col) →
        k ∉ ((out.s3Resps.zip (createdDicts pairs batch)).filter
            (fun q => q.1.isSome)).map (fun q => q.2.docNum args.id_col) := by
      intro k hk hmem
      obtain ⟨q, hqF, hqEq⟩ := List.mem_map.mp hmem
      have hq2 : q.2 ∈ createdDicts pairs batch :=
        (List.of_mem_zip (List.mem_of_mem_filter hqF)).2
      exact hk (hnum1 ▸
        (hqEq ▸ List.mem_map_of_mem (fun d => d.docNum args.id_col) hq2))
    have hfst1 : (((createdDicts pairs batch).map
          (fun d => (d.docNum args.id_col, e.msg))).map Prod.fst)
        = (createdDicts pairs batch).map (fun d => d.docNum args.id_col) := by
      rw [List.map_map]
      rfl
    obtain ⟨w, q', hfc⟩ := finishedCheck_exists_step
      ⟨some (createdDicts pairs batch), some fin⟩ event rest
      ((createdDicts pairs batch).foldl
        (fun db d => db.failUpsert (d.docNum args.id_col) e.msg)
        (upload_files_s3 args.id_col (createdDicts pairs batch) out.s3Resps db).2.1)
      ((upload_files_s3 args.id_col (createdDicts pairs batch) out.s3Resps db).2.2 ++ [])
    refine ⟨w, q',
      DB.failMany
        (upload_files_s3 args.id_col (createdDicts pairs batch) out.s3Resps db).2.1
        ((createdDicts pairs batch).map (fun d => (d.docNum args.id_col, e.msg))),
      (upload_files_s3 args.id_col (createdDicts pairs batch) out.s3Resps db).2.2 ++ [],
      ?_, ?_, ?_, ?_⟩
    · rw [worker_iter_phases args headers loc event out queue db batch fin rest pairs
        hget hie hcr, hproc]
      simp only [process_documents, hpie, Bool.false_eq_true, if_false, he]
      rw [failMany_map_docNum]
      exact hfc
    · intro d hd
      have hmem1 : d.docNum args.id_col
          ∈ (createdDicts pairs batch).map (fun d => d.docNum args.id_col) := by
        rw [hnum1]
        exact List.mem_map_of_mem _ hd
      rw [DB.errorCount_failMany, hfst1]
      have h1 := List.count_pos_iff.mpr hmem1
      have h2 : db.errorCount (d.docNum args.id_col)
          ≤ DB.errorCount (upload_files_s3 args.id_col (createdDicts pairs batch)
              out.s3Resps db).2.1 (d.docNum args.id_col) := by
        rw [hs3db, DB.errorCount_failMany]
        omega
      omega
    · intro k hk
      rw [DB.find_failMany_notMem _ _ _ (by rw [hfst1, hnum1]; exact hk), hs3db,
        DB.find_failMany_notMem _ _ _ (by rw [herrfst]; exact herrsub k hk)]
    · intro k
      rw [DB.completed_failMany, hs3db, DB.completed_failMany]

/-- Witness for `worker_catchall_settles_constructed_batch`: one-row batch,
phase 1 raising an uncategorized (non-api) exception. -/
theorem worker_catchall_settles_constructed_batch_witness :
    ∃ w q' db' dels,
      worker_iter { args0 with batch_size := 1 } ["document_number", "title"]
          ⟨none, none⟩ false ⟨.error (.other "boom"), [], .ok ()⟩
          [QItem.row ["doc1", "t1"]] []
        = .step w q' db' dels ∧
      DB.errorCount ([] : DB) "doc1" < DB.errorCount db' "doc1" := by
  obtain ⟨w, q', db', dels, hstep, hinc, hloc, hcompl⟩ :=
    worker_catchall_settles_constructed_batch { args0 with batch_size := 1 }
      ["document_number", "title"] ⟨none, none⟩ false
      ⟨.error (.other "boom"), [], .ok ()⟩ [QItem.row ["doc1", "t1"]] []
      [{ title := "t1", projects := [1], source := "", access := "private",
         delayed_index := true, data := [("document_number", "doc1")],
         id := none, presigned_url := none }] false [] (.other "boom")
      rfl (by decide) rfl (Or.inl rfl)
  exact ⟨w, q', db', dels, hstep,
    hinc { title := "t1", projects := [1], source := "", access := "private",
           delayed_index := true, data := [("document_number", "doc1")],
           id := none, presigned_url := none } (List.mem_singleton.mpr rfl)⟩


theorem assocPop_eq_none_of_notMem (l : List (String × String)) (k : String)
    (h : k ∉ l.map Prod.fst) : assocPop l k = none := by
  induction l with
  | nil => rfl
  | cons p rest ih =>
    simp only [List.map_cons, List.mem_cons, not_or] at h
    unfold assocPop
    rw [if_neg (fun hh => h.1 hh.symm), ih h.2]
    rfl

/-- C7 counterexample: a metadata file whose header `[a, b]` is missing
both the identifier column (`document_number`) and the title column, with
no data rows, is scanned without any error at all: reading the header
raises nothing, and with a data row present the failure is a per-row
`ValueError` from `headers.index`, not a header-read failure; a missing
title column is never checked by the scan — it surfaces only as a per-row
`KeyError` in `row_to_dict` when a worker builds its batch. -/
theorem missing_header_columns_not_detected_at_header :
    get_new_files args0 ["a", "b"] [] [] = .ok [] ∧
    get_new_files args0 ["a", "b"] [["x", "y"]] []
      = .error (.valueError "document_number") ∧
    get_new_files args0 ["document_number"] [["d1"]] [] = .ok [["d1"]] ∧
    row_to_dict args0 ["document_number"] ["d1"] = .error (.keyError "title") := by
  refine ⟨rfl, rfl, rfl, rfl⟩

/-- C7 as amended: when the configured identifier column is absent from
the header, the scan succeeds (with no output) on a file with no data rows
and raises `ValueError` while handling the first data row; when the title
column is absent, the scan itself never fails — every row fails later with
a `KeyError` when `row_to_dict` is applied at batch-construction time. -/
theorem missing_header_columns_fail_per_row (args : Args)
    (headers : List String) (uploaded : List String) :
    (args.id_col ∉ headers →
      get_new_files args headers [] uploaded = .ok [] ∧
      ∀ (row : List String) (rest : List (List String)),
        get_new_files args headers (row :: rest) uploaded
          = .error (.valueError args.id_col)) ∧
    ("title" ∉ headers →
      ∀ row : List String,
        row_to_dict args headers row = .error (.keyError "title")) := by
  constructor
  · intro hid
    have hidx : headers.indexOf? args.id_col = none :=
      List.indexOf?_eq_none_iff.mpr (fun x hx hxa => hid ((beq_iff_eq.mp hxa) ▸ hx))
    refine ⟨rfl, ?_⟩
    intro row rest
    unfold get_new_files id_col_index
    rw [hidx]
  · intro htitle row
    unfold row_to_dict
    rw [assocPop_eq_none_of_notMem]
    intro hmem
    obtain ⟨q, hq, hq1⟩ := List.mem_map.mp hmem
    exact htitle (hq1 ▸ (List.of_mem_zip hq).1)

/-- Witness for `missing_header_columns_fail_per_row` at a concrete
header lacking both columns. -/
theorem missing_header_columns_fail_per_row_witness :
    get_new_files args0 ["a"] [["x"]] [] = .error (.valueError "document_number") ∧
    row_to_dict args0 ["a"] ["x"] = .error (.keyError "title") :=
  ⟨((missing_header_columns_fail_per_row args0 ["a"] []).1 (by decide)).2 ["x"] [],
   (missing_header_columns_fail_per_row args0 ["a"] []).2 (by decide) ["x"]⟩

/-! The local-error reconciliation sweep `reupload_error_files`. -/

/-- One record returned by the remote search for an identifier. -/
structure RemoteDoc where
  rid : Nat
  status : String
deriving Repr, DecidableEq

/-- The per-record delete loop of the multiple-match branches of
`reupload_error_files`: each record is deleted in turn (`delOk` gives the
outcome of `client.delete`); the first failure increments the
identifier's `error` column and breaks.  Returns the ledger, the ids for
which a delete call was issued, and whether the loop ran to completion
(Python's `for ... else`). -/
def reconDeleteLoop (delOk : Nat → Bool) (db : DB) (num : String) :
    List RemoteDoc → DB × List Nat × Bool
  | [] => (db, [], true)
  | r :: rest =>
    if delOk r.rid then
      match reconDeleteLoop delOk db num rest with
      | (db', dels, loopDone) => (db', r.rid :: dels, loopDone)
    else
      (db.errorIncr num, [r.rid], false)

/-- The body of the sweep loop of `reupload_error_files` for one failed
identifier, given the remote search `results`.  Returns the ledger, the
identifiers appended to the `reupload` batch, and the remote ids for which
a delete call was issued.  The skipped element of the any-success branch is
the first success (`[r for r in results if r.status == "success"][0]`). -/
def recon_step (results : List RemoteDoc) (delOk : Nat → Bool)
    (db : DB) (num : String) : DB × List String × List Nat :=
  match results with
  | [] => (db, [num], [])
  | [r] =>
    if r.status = "success" then (db.markUploaded num, [], [])
    else
      if delOk r.rid then (db, [num], [r.rid])
      else (db.errorIncr num, [], [r.rid])
  | _ :: _ :: _ =>
    if results.any (fun r => r.status = "success") then
      match results.findIdx? (fun r => r.status = "success") with
      | some i =>
        match reconDeleteLoop delOk db num (results.eraseIdx i) with
        | (db', dels, loopDone) =>
          if loopDone then (db'.markUploaded num, [], dels)
          else (db', [], dels)
      | none => (db, [], [])
    else
      match reconDeleteLoop delOk db num results with
      | (db', dels, loopDone) =>
        if loopDone then (db', [num], dels)
        else (db', [], dels)

theorem DB.completed_markUploaded_self_of_found (db : DB) (k : String)
    (h : (db.find k).isSome = true) : (db.markUploaded k).completed k = true := by
  unfold DB.completed DB.markUploaded
  rw [DB.find_setEntry_self]
  cases h1 : db.find k with
  | none => rw [h1] at h; simp at h
  | some e => simp [h1]

/-- C9: in the local-error sweep, a failed identifier whose remote search
returns exactly one record with status `success` gets
`UPDATE documents SET uploaded = 1` (so its existing ledger row — every
swept identifier has one, having been selected by `uploaded = 0` — becomes
completed), is not appended to the `reupload` batch, and no delete call is
issued, so its bytes are not re-uploaded. -/
theorem recon_single_success_marks_completed (results : List RemoteDoc)
    (delOk : Nat → Bool) (db : DB) (num : String) (r : RemoteDoc)
    (hres : results = [r]) (hst : r.status = "success")
    (hrow : (db.find num).isSome = true) :
    (recon_step results delOk db num).1 = db.markUploaded num ∧
    DB.completed (recon_step results delOk db num).1 num = true ∧
    (recon_step results delOk db num).2.1 = [] ∧
    (recon_step results delOk db num).2.2 = [] := by
  subst hres
  refine ⟨?_, ?_, ?_, ?_⟩ <;>
    simp [recon_step, hst, db.completed_markUploaded_self_of_found num hrow]

/-- Witness for `recon_single_success_marks_completed`: a concrete sweep
over `dbFail1` with one successful remote record. -/
theorem recon_single_success_marks_completed_witness :
    DB.completed (recon_step [⟨5, "success"⟩] (fun _ => true) dbFail1 "doc1").1 "doc1" = true ∧
    (recon_step [⟨5, "success"⟩] (fun _ => true) dbFail1 "doc1").2.1 = [] :=
  ⟨(recon_single_success_marks_completed [⟨5, "success"⟩] (fun _ => true) dbFail1 "doc1"
      ⟨5, "success"⟩ rfl rfl (by decide)).2.1,
   (recon_single_success_marks_completed [⟨5, "success"⟩] (fun _ => true) dbFail1 "doc1"
      ⟨5, "success"⟩ rfl rfl (by decide)).2.2.1⟩

/-! Claim C8: the producer/worker/queue system and the sentinel protocol.
One step is either a producer action of `enqueue_files`, setting the
cancellation event, or one full pass of a worker's loop body (taken
atomically; the remote outcomes of the pass are chosen at the step). -/

/-- Number of copies of the `SENTINEL` object in the queue. -/
def sentCount : List QItem → Nat
  | [] => 0
  | QItem.sent :: rest => sentCount rest + 1
  | QItem.row _ :: rest => sentCount rest

theorem sentCount_append (l l' : List QItem) :
    sentCount (l ++ l') = sentCount l + sentCount l' := by
  induction l with
  | nil => simp [sentCount]
  | cons q rest ih =>
    cases q with
    | sent => simp [sentCount, ih]; omega
    | row r => simp [sentCount, ih]

/-- The queue capacity `num_threads * batch_size * 2` set in `main`. -/
def qCap (args : Args) : Nat :=
  args.num_threads * args.batch_size * 2

/-- Global state: the producer's remaining rows and done flag, a ghost
counter of sentinel puts by the producer, the cancellation event, the
queue, the worker threads, the ledger, and the delete calls issued. -/
structure SysState where
  prodRows : List (List String)
  prodDone : Bool
  sentPuts : Nat
  event : Bool
  queue : List QItem
  workers : List WStatus
  db : DB
  deletes : List (List String)

/-- Interleaving semantics.  `prodRow` puts the next row (the event is
checked between puts, and `queue.put` blocks at capacity); `prodSent` is
the single `queue.put(SENTINEL)` after the loop, reached when the rows ran
out or the event stopped the loop; `cancel` sets the event; `work` is one
full pass of `upload_files_dc`'s loop by an alive worker. -/
inductive Step (args : Args) (headers : List String) : SysState → SysState → Prop
  | prodRow (s : SysState) (r : List String) (rest : List (List String)) :
      s.prodDone = false → s.event = false → s.prodRows = r :: rest →
      s.queue.length < qCap args →
      Step args headers s
        { s with prodRows := rest, queue := s.queue ++ [QItem.row r] }
  | prodSent (s : SysState) :
      s.prodDone = false → (s.prodRows = [] ∨ s.event = true) →
      s.queue.length < qCap args →
      Step args headers s
        { s with prodDone := true, sentPuts := s.sentPuts + 1,
                 queue := s.queue ++ [QItem.sent] }
  | cancel (s : SysState) :
      Step args headers s { s with event := true }
  | work (s : SysState) (i : Nat) (loc : WLocals) (out : Outcomes)
      (w' : WStatus) (q' : List QItem) (db' : DB) (dels : List (List String)) :
      s.workers.get? i = some (.alive loc) →
      worker_iter args headers loc s.event out s.queue s.db
        = .step w' q' db' dels →
      Step args headers s
        { s with workers := s.workers.set i w', queue := q', db := db',
                 deletes := s.deletes ++ dels }

/-- A step that is not an (effective) cancellation. -/
def StepNC (args : Args) (headers : List String) (s s' : SysState) : Prop :=
  Step args headers s s' ∧ s'.event = s.event

/-- The initial state of `main`: rows to enqueue, `n` worker threads with
unassigned locals, an empty queue, the loaded ledger. -/
def initState (rows : List (List String)) (n : Nat) (db : DB) : SysState :=
  ⟨rows, false, 0, false, [], List.replicate n (WStatus.alive ⟨none, none⟩), db, []⟩

/-- Sentinel accounting of the collection loop: a pass that ends with
`finished = true` consumed exactly one sentinel (the first in the queue);
a pass with `finished = false` consumed only rows; a raising pass consumed
at most one sentinel.  An empty batch means nothing was collected, which
with positive fuel forces `finished = true`. -/
theorem getFilesLoop_spec (args : Args) (headers : List String) :
    ∀ (n : Nat) (queue : List QItem) (acc : List DocDict),
      (∀ batch fin rest,
        getFilesLoop args headers n queue acc = .ok batch fin rest →
          (fin = true → sentCount queue = sentCount rest + 1) ∧
          (fin = false → sentCount rest = sentCount queue) ∧
          (batch = [] → acc = [] ∧ (fin = true ∨ n = 0))) ∧
      (∀ e rest,
        getFilesLoop args headers n queue acc = .raise e rest →
          sentCount rest ≤ sentCount queue) := by
  intro n
  induction n with
  | zero =>
    intro queue acc
    constructor
    · intro batch fin rest h
      simp only [getFilesLoop] at h
      cases hpc : printCheck args.id_col acc with
      | some e => rw [hpc] at h; cases h
      | none =>
        rw [hpc] at h
        injection h with hb hf hr
        subst hb
        subst hr
        refine ⟨?_, ?_, ?_⟩
        · intro hft; rw [hft] at hf; cases hf
        · intro _; rfl
        · intro hbe; exact ⟨hbe, Or.inr rfl⟩
    · intro e rest h
      simp only [getFilesLoop] at h
      cases hpc : printCheck args.id_col acc with
      | some e0 =>
        rw [hpc] at h
        injection h with he hr
        subst hr
        exact le_refl _
      | none => rw [hpc] at h; cases h
  | succ n ih =>
    intro queue acc
    cases queue with
    | nil =>
      constructor
      · intro batch fin rest h
        simp only [getFilesLoop] at h
        cases h
      · intro e rest h
        simp only [getFilesLoop] at h
        cases h
    | cons q rest0 =>
      cases q with
      | sent =>
        constructor
        · intro batch fin rest h
          simp only [getFilesLoop] at h
          cases hpc : printCheck args.id_col acc with
          | some e => rw [hpc] at h; cases h
          | none =>
            rw [hpc] at h
            injection h with hb hf hr
            subst hb
            subst hr
            refine ⟨?_, ?_, ?_⟩
            · intro _; rfl
            · intro hff; rw [hff] at hf; cases hf
            · intro hbe; exact ⟨hbe, Or.inl hf.symm⟩
        · intro e rest h
          simp only [getFilesLoop] at h
          cases hpc : printCheck args.id_col acc with
          | some e0 =>
            rw [hpc] at h
            injection h with he hr
            subst hr
            show sentCount rest0 ≤ sentCount rest0 + 1
            omega
          | none => rw [hpc] at h; cases h
      | row r =>
        constructor
        · intro batch fin rest h
          simp only [getFilesLoop] at h
          cases hr : row_to_dict args headers r with
          | error e => rw [hr] at h; cases h
          | ok d =>
            rw [hr] at h
            have ihh := (ih rest0 (acc ++ [d])).1 batch fin rest h
            refine ⟨?_, ?_, ?_⟩
            · intro hft
              show sentCount rest0 = sentCount rest + 1
              exact ihh.1 hft
            · intro hff
              show sentCount rest = sentCount rest0
              exact ihh.2.1 hff
            · intro hbe
              have := (ihh.2.2 hbe).1
              exact absurd this (by simp)
        · intro e rest h
          simp only [getFilesLoop] at h
          cases hr : row_to_dict args headers r with
          | error e0 =>
            rw [hr] at h
            injection h with he hrr
            subst hrr
            exact le_refl _
          | ok d =>
            rw [hr] at h
            exact (ih rest0 (acc ++ [d])).2 e rest h

/-- Reduction of a worker pass whose collection raised. -/
theorem worker_iter_raise (args : Args) (headers : List String)
    (loc : WLocals) (event : Bool) (out : Outcomes) (queue : List QItem)
    (db : DB) (e : PyExc) (rest : List QItem)
    (hg : get_files_from_queue args headers queue = .raise e rest) :
    worker_iter args headers loc event out queue db
      = (if e.isApi then finishedCheck loc event rest db []
         else
           match loc.doc_dicts with
           | none => .step (.crashed .unboundLocal) rest db []
           | some stale =>
             finishedCheck loc event rest
               (stale.foldl
                 (fun db d => db.failUpsert (d.docNum args.id_col) e.msg) db)
               []) := by
  unfold worker_iter
  rw [hg]

/-- Reduction of a worker pass that dequeued only the sentinel. -/
theorem worker_iter_empty (args : Args) (headers : List String)
    (loc : WLocals) (event : Bool) (out : Outcomes) (queue : List QItem)
    (db : DB) (fin : Bool) (rest : List QItem)
    (hg : get_files_from_queue args headers queue = .ok [] fin rest) :
    worker_iter args headers loc event out queue db
      = .step .terminated (rest ++ [QItem.sent]) db [] := by
  unfold worker_iter
  rw [hg]
  rfl

/-- Reduction of a worker pass whose phase-1 call raised: whether the
error is of the caught api kind (recorded inside `create_documents`) or
uncategorized (recorded by the catch-all), the resulting ledger is the
same failure fold over the batch. -/
theorem worker_iter_create_err (args : Args) (headers : List String)
    (loc : WLocals) (event : Bool) (out : Outcomes) (queue : List QItem)
    (db : DB) (batch : List DocDict) (fin : Bool) (rest : List QItem) (e : PyExc)
    (hg : get_files_from_queue args headers queue = .ok batch fin rest)
    (hie : batch.isEmpty = false)
    (hcr : out.createResp = .error e) :
    worker_iter args headers loc event out queue db
      = finishedCheck ⟨some batch, some fin⟩ event rest
          (batch.foldl (fun db d => db.failUpsert (d.docNum args.id_col) e.msg) db)
          [] := by
  unfold worker_iter
  rw [hg, hcr]
  simp only [hie, Bool.false_eq_true, if_false]
  by_cases he : e.isApi = true
  · simp only [create_documents, he, if_true]
  · simp only [create_documents, he, Bool.false_eq_true, if_false]

/-- Every non-blocked pass of the worker body ends in one of three ways:
a thread crash, a direct termination on an empty batch (sentinel put
back), or the end-of-loop check — with `finished` freshly assigned when
the batch was constructed, stale when collection raised. -/
theorem worker_iter_shape (args : Args) (headers : List String)
    (loc : WLocals) (event : Bool) (out : Outcomes) (queue : List QItem)
    (db : DB) :
    worker_iter args headers loc event out queue db = .blocked ∨
    (∃ e rest, get_files_from_queue args headers queue = .raise e rest ∧
      (worker_iter args headers loc event out queue db
          = .step (.crashed .unboundLocal) rest db [] ∨
       ∃ db1, worker_iter args headers loc event out queue db
          = finishedCheck loc event rest db1 [])) ∨
    (∃ batch fin rest,
      get_files_from_queue args headers queue = .ok batch fin rest ∧
      ((batch = [] ∧ worker_iter args headers loc event out queue db
          = .step .terminated (rest ++ [QItem.sent]) db []) ∨
       (batch ≠ [] ∧ ∃ dicts1 db1 dels1,
          worker_iter args headers loc event out queue db
            = finishedCheck ⟨some dicts1, some fin⟩ event rest db1 dels1))) := by
  cases hg : get_files_from_queue args headers queue with
  | blocked =>
    left
    unfold worker_iter
    rw [hg]
  | raise e rest =>
    right; left
    refine ⟨e, rest, rfl, ?_⟩
    have hred := worker_iter_raise args headers loc event out queue db e rest hg
    by_cases he : e.isApi = true
    · exact Or.inr ⟨db, by rw [hred, if_pos he]⟩
    · cases hdd : loc.doc_dicts with
      | none =>
        refine Or.inl ?_
        rw [hred, if_neg he, hdd]
      | some stale =>
        refine Or.inr
          ⟨stale.foldl (fun db d => db.failUpsert (d.docNum args.id_col) e.msg) db, ?_⟩
        rw [hred, if_neg he, hdd]
  | ok batch fin rest =>
    right; right
    refine ⟨batch, fin, rest, rfl, ?_⟩
    cases batch with
    | nil =>
      exact Or.inl ⟨rfl, worker_iter_empty args headers loc event out queue db
        fin rest hg⟩
    | cons b bs =>
      refine Or.inr ⟨by simp, ?_⟩
      have hie : (b :: bs).isEmpty = false := rfl
      cases hocr : out.createResp with
      | error e0 =>
        exact ⟨b :: bs, _, [],
          worker_iter_create_err args headers loc event out queue db
            (b :: bs) fin rest e0 hg hie hocr⟩
      | ok pairs =>
        have hred := worker_iter_phases args headers loc event out queue db
          (b :: bs) fin rest pairs hg hie hocr
        rcases hp : process_documents args.id_col out.processResp
            (upload_files_s3 args.id_col (createdDicts pairs (b :: bs))
              out.s3Resps db).1
            (createdDicts pairs (b :: bs))
            (upload_files_s3 args.id_col (createdDicts pairs (b :: bs))
              out.s3Resps db).2.1
          with ⟨pres, db3, dels2⟩
        rw [hp] at hred
        cases pres with
        | error e1 =>
          by_cases h1 : e1.isApi = true
          · simp only [h1, if_true] at hred
            exact ⟨createdDicts pairs (b :: bs), db3, _, hred⟩
          · simp only [h1, Bool.false_eq_true, if_false] at hred
            exact ⟨createdDicts pairs (b :: bs), _, _, hred⟩
        | ok u =>
          exact ⟨createdDicts pairs (b :: bs), db3, _, hred⟩

/-- Sentinel accounting of one worker pass: a pass never increases the
number of sentinels in the queue, it hands alive workers locals with
`finished ≠ True`, and — absent cancellation — a pass that terminates the
worker leaves a sentinel in the queue (the re-enqueue before returning). -/
theorem worker_iter_sentinel (args : Args) (headers : List String)
    (loc : WLocals) (event : Bool) (out : Outcomes) (queue : List QItem)
    (db : DB) (w' : WStatus) (q' : List QItem) (db' : DB)
    (dels : List (List String))
    (hbs : 0 < args.batch_size) (hfin : loc.finished ≠ some true)
    (hw : worker_iter args headers loc event out queue db = .step w' q' db' dels) :
    sentCount q' ≤ sentCount queue ∧
    (∀ loc', w' = .alive loc' → loc'.finished ≠ some true) ∧
    (event = false → w' = .terminated → 1 ≤ sentCount q') := by
  rcases worker_iter_shape args headers loc event out queue db with hb
    | ⟨e, rest, hg, hcase⟩ | ⟨batch, fin, rest, hg, hcase⟩
  · rw [hb] at hw
    cases hw
  · have hr : sentCount rest ≤ sentCount queue :=
      (getFilesLoop_spec args headers args.batch_size queue []).2 e rest hg
    rcases hcase with hcrash | ⟨db1, hfc⟩
    · rw [hcrash] at hw
      injection hw with h1 h2 h3 h4
      subst h1
      subst h2
      exact ⟨hr, fun loc' hh => WStatus.noConfusion hh,
             fun _ hh => WStatus.noConfusion hh⟩
    · rw [hfc] at hw
      cases hlf : loc.finished with
      | none =>
        unfold finishedCheck at hw
        rw [hlf] at hw
        have hw' : IterOut.step (.crashed .unboundLocal) rest db1 []
            = .step w' q' db' dels := hw
        injection hw' with h1 h2 h3 h4
        subst h1
        subst h2
        exact ⟨hr, fun loc' hh => WStatus.noConfusion hh,
               fun _ hh => WStatus.noConfusion hh⟩
      | some fin0 =>
        cases fin0 with
        | true => exact absurd hlf hfin
        | false =>
          unfold finishedCheck at hw
          rw [hlf] at hw
          cases event with
          | true =>
            have hw' : IterOut.step .terminated [] db1 []
                = .step w' q' db' dels := hw
            injection hw' with h1 h2 h3 h4
            subst h1
            subst h2
            exact ⟨Nat.zero_le _, fun loc' hh => WStatus.noConfusion hh,
                   fun he _ => by cases he⟩
          | false =>
            have hw' : IterOut.step (.alive loc) rest db1 []
                = .step w' q' db' dels := hw
            injection hw' with h1 h2 h3 h4
            subst h1
            subst h2
            refine ⟨hr, ?_, ?_⟩
            · intro loc' hh
              injection hh with hh1
              rw [← hh1]
              exact hfin
            · intro _ hh
              exact WStatus.noConfusion hh
  · have hok := (getFilesLoop_spec args headers args.batch_size queue []).1
      batch fin rest hg
    rcases hcase with ⟨hbe, hterm⟩ | ⟨hne, dicts1, db1, dels1, hfc⟩
    · have hfint : fin = true := by
        rcases (hok.2.2 hbe).2 with h | h
        · exact h
        · omega
      have hqr : sentCount queue = sentCount rest + 1 := hok.1 hfint
      rw [hterm] at hw
      injection hw with h1 h2 h3 h4
      subst h1
      subst h2
      refine ⟨?_, fun loc' hh => WStatus.noConfusion hh, ?_⟩
      · rw [sentCount_append]
        show sentCount rest + sentCount [QItem.sent] ≤ sentCount queue
        show sentCount rest + 1 ≤ sentCount queue
        omega
      · intro _ _
        rw [sentCount_append]
        show 1 ≤ sentCount rest + 1
        omega
    · rw [hfc] at hw
      cases fin with
      | true =>
        have hqr : sentCount queue = sentCount rest + 1 := hok.1 rfl
        cases event with
        | true =>
          have hw' : IterOut.step .terminated [] db1 dels1
              = .step w' q' db' dels := hw
          injection hw' with h1 h2 h3 h4
          subst h1
          subst h2
          exact ⟨Nat.zero_le _, fun loc' hh => WStatus.noConfusion hh,
                 fun he _ => by cases he⟩
        | false =>
          have hw' : IterOut.step .terminated (rest ++ [QItem.sent]) db1 dels1
              = .step w' q' db' dels := hw
          injection hw' with h1 h2 h3 h4
          subst h1
          subst h2
          refine ⟨?_, fun loc' hh => WStatus.noConfusion hh, ?_⟩
          · rw [sentCount_append]
            show sentCount rest + 1 ≤ sentCount queue
            omega
          · intro _ _
            rw [sentCount_append]
            show 1 ≤ sentCount rest + 1
            omega
      | false =>
        have hqr : sentCount rest = sentCount queue := hok.2.1 rfl
        cases event with
        | true =>
          have hw' : IterOut.step .terminated [] db1 dels1
              = .step w' q' db' dels := hw
          injection hw' with h1 h2 h3 h4
          subst h1
          subst h2
          exact ⟨Nat.zero_le _, fun loc' hh => WStatus.noConfusion hh,
                 fun he _ => by cases he⟩
        | false =>
          have hw' : IterOut.step (.alive ⟨some dicts1, some false⟩) rest db1 dels1
              = .step w' q' db' dels := hw
          injection hw' with h1 h2 h3 h4
          subst h1
          subst h2
          refine ⟨by omega, ?_, ?_⟩
          · intro loc' hh
            injection hh with hh1
            rw [← hh1]
            intro hcc
            cases hcc
          · intro _ hh
            exact WStatus.noConfusion hh

/-- With a sentinel somewhere in the queue, the collection loop never
blocks. -/
theorem getFilesLoop_not_blocked (args : Args) (headers : List String) :
    ∀ (n : Nat) (queue : List QItem) (acc : List DocDict),
      QItem.sent ∈ queue →
      getFilesLoop args headers n queue acc ≠ .blocked := by
  intro n
  induction n with
  | zero =>
    intro queue acc _
    simp only [getFilesLoop]
    cases hpc : printCheck args.id_col acc <;> simp
  | succ n ih =>
    intro queue acc hq
    cases queue with
    | nil => cases hq
    | cons q rest0 =>
      cases q with
      | sent =>
        simp only [getFilesLoop]
        cases hpc : printCheck args.id_col acc <;> simp
      | row r =>
        simp only [getFilesLoop]
        cases hr : row_to_dict args headers r with
        | error e => simp
        | ok d =>
          have hq' : QItem.sent ∈ rest0 := by
            cases hq with
            | tail _ hm => exact hm
          exact ih rest0 (acc ++ [d]) hq'

/-- A worker facing a queue that holds the sentinel is never blocked:
some pass (for some remote outcomes) completes. -/
theorem worker_iter_exists_step (args : Args) (headers : List String)
    (loc : WLocals) (event : Bool) (queue : List QItem) (db : DB)
    (hq : QItem.sent ∈ queue) :
    ∃ out w' q' db' dels,
      worker_iter args headers loc event out queue db = .step w' q' db' dels := by
  refine ⟨⟨.error (.api "boom"), [], .ok ()⟩, ?_⟩
  cases hg : get_files_from_queue args headers queue with
  | blocked =>
    exact absurd hg (getFilesLoop_not_blocked args headers args.batch_size queue [] hq)
  | raise e rest =>
    have hred := worker_iter_raise args headers loc event
      ⟨.error (.api "boom"), [], .ok ()⟩ queue db e rest hg
    by_cases he : e.isApi = true
    · obtain ⟨w, q', hfc⟩ := finishedCheck_exists_step loc event rest db []
      exact ⟨w, q', db, [], by rw [hred, if_pos he, hfc]⟩
    · cases hdd : loc.doc_dicts with
      | none =>
        exact ⟨.crashed .unboundLocal, rest, db, [], by rw [hred, if_neg he, hdd]⟩
      | some stale =>
        obtain ⟨w, q', hfc⟩ := finishedCheck_exists_step loc event rest
          (stale.foldl (fun db d => db.failUpsert (d.docNum args.id_col) e.msg) db) []
        exact ⟨w, q',
          stale.foldl (fun db d => db.failUpsert (d.docNum args.id_col) e.msg) db, [],
          by rw [hred, if_neg he, hdd]; exact hfc⟩
  | ok batch fin rest =>
    cases batch with
    | nil =>
      exact ⟨.terminated, rest ++ [QItem.sent], db, [],
        worker_iter_empty args headers loc event
          ⟨.error (.api "boom"), [], .ok ()⟩ queue db fin rest hg⟩
    | cons b bs =>
      have hred := worker_iter_create_err args headers loc event
        ⟨.error (.api "boom"), [], .ok ()⟩ queue db (b :: bs) fin rest
        (.api "boom") hg rfl rfl
      obtain ⟨w, q', hfc⟩ := finishedCheck_exists_step ⟨some (b :: bs), some fin⟩
        event rest
        ((b :: bs).foldl
          (fun db d => db.failUpsert (d.docNum args.id_col) (PyExc.api "boom").msg) db) []
      exact ⟨w, q', _, [], by rw [hred, hfc]⟩

/-- The per-worker fact the invariant tracks: an alive worker's `finished`
local was never left assigned `True` (a worker observing `finished = True`
returns at the end of that very pass). -/
def WorkersOK (ws : List WStatus) : Prop :=
  ∀ st ∈ ws, ∀ loc, st = WStatus.alive loc → loc.finished ≠ some true

/-- Sentinel-safety along every run, cancellation included: the queue
never holds two sentinels, it holds none while the producer is still
enqueuing rows, and the producer performs its single sentinel put exactly
when it finishes. -/
theorem step_invariant (args : Args) (headers : List String)
    (hbs : 0 < args.batch_size) (rows : List (List String)) (n : Nat)
    (db0 : DB) (s : SysState)
    (h : Relation.ReflTransGen (Step args headers) (initState rows n db0) s) :
    WorkersOK s.workers ∧
    (s.prodDone = false → sentCount s.queue = 0) ∧
    sentCount s.queue ≤ 1 ∧
    s.sentPuts = (if s.prodDone then 1 else 0) := by
  induction h with
  | refl =>
    refine ⟨?_, fun _ => rfl, by simp [initState, sentCount], rfl⟩
    intro st hst loc hal
    have := List.eq_of_mem_replicate hst
    rw [this] at hal
    injection hal with h1
    rw [← h1]
    intro hcc
    cases hcc
  | @tail b c hsteps hstep ih =>
    cases hstep with
    | prodRow r rest h1 h2 h3 h4 =>
      refine ⟨ih.1, ?_, ?_, ih.2.2.2⟩
      · intro hpd
        show sentCount (b.queue ++ [QItem.row r]) = 0
        rw [sentCount_append]
        have := ih.2.1 hpd
        simp [sentCount]
        omega
      · show sentCount (b.queue ++ [QItem.row r]) ≤ 1
        rw [sentCount_append]
        have := ih.2.2.1
        simp [sentCount]
        omega
    | prodSent h1 h2 h3 =>
      refine ⟨ih.1, ?_, ?_, ?_⟩
      · intro hpd
        cases hpd
      · show sentCount (b.queue ++ [QItem.sent]) ≤ 1
        rw [sentCount_append]
        have := ih.2.1 h1
        simp [sentCount]
        omega
      · show b.sentPuts + 1 = if true = true then 1 else 0
        have := ih.2.2.2
        rw [h1] at this
        simp at this
        simp [this]
    | cancel =>
      exact ih
    | work i loc out w' q' db' dels hget hw =>
      have hmem : WStatus.alive loc ∈ b.workers := List.get?_mem hget
      have hfin : loc.finished ≠ some true := ih.1 _ hmem loc rfl
      have hws := worker_iter_sentinel args headers loc b.event out b.queue
        b.db w' q' db' dels hbs hfin hw
      refine ⟨?_, ?_, ?_, ih.2.2.2⟩
      · intro st hst loc' hal
        rcases List.mem_or_eq_of_mem_set hst with hmem' | hw'
        · exact ih.1 st hmem' loc' hal
        · rw [hw'] at hal
          exact hws.2.1 loc' hal
      · intro hpd
        have hpd' : b.prodDone = false := hpd
        have h0 := ih.2.1 hpd'
        have h1 := hws.1
        show sentCount q' = 0
        omega
      · have h0 := ih.2.2.1
        have h1 := hws.1
        show sentCount q' ≤ 1
        omega

/-- Invariants special to runs without cancellation: the event stays
clear, and the producer finishes only after its last record. -/
theorem stepNC_invariant (args : Args) (headers : List String)
    (rows : List (List String)) (n : Nat) (db0 : DB) (s : SysState)
    (h : Relation.ReflTransGen (StepNC args headers) (initState rows n db0) s) :
    s.event = false ∧ (s.prodDone = true → s.prodRows = []) := by
  induction h with
  | refl => exact ⟨rfl, fun hh => by cases hh⟩
  | @tail b c hsteps hstep ih =>
    obtain ⟨hst, hev⟩ := hstep
    cases hst with
    | prodRow r rest h1 h2 h3 h4 =>
      refine ⟨ih.1, ?_⟩
      intro hpd
      have hpd' : b.prodDone = true := hpd
      rw [h1] at hpd'
      cases hpd'
    | prodSent h1 h2 h3 =>
      refine ⟨ih.1, ?_⟩
      intro _
      show b.prodRows = []
      rcases h2 with h | h
      · exact h
      · rw [ih.1] at h
        cases h
    | cancel =>
      exfalso
      have h' : true = b.event := hev
      rw [ih.1] at h'
      cases h'
    | work i loc out w' q' db' dels hget hw =>
      refine ⟨ih.1, ?_⟩
      intro hpd
      have hpd' : b.prodDone = true := hpd
      show b.prodRows = []
      exact ih.2 hpd'

/-- C8 as amended: in runs without cancellation, the end-of-stream marker
is enqueued exactly once by the producer, after its last record
(`sentPuts` flips 0 → 1 exactly when the producer finishes, with its rows
exhausted); the queue never holds more than one live copy of the marker;
every worker pass that terminates the worker has re-enqueued the marker
(its resulting queue holds one); and an alive worker facing a queue that
holds the marker always has an enabled (non-blocking) pass, so under fair
scheduling every worker eventually observes it.  The original claim fails
under cancellation (see the counterexample): a worker that dequeued the
marker with the event set drains the queue and terminates without
re-enqueueing it. -/
theorem sentinel_protocol_no_cancel (args : Args) (headers : List String)
    (hbs : 0 < args.batch_size) (rows : List (List String)) (n : Nat)
    (db0 : DB) (s : SysState)
    (h : Relation.ReflTransGen (StepNC args headers) (initState rows n db0) s) :
    s.event = false ∧
    s.sentPuts = (if s.prodDone then 1 else 0) ∧
    (s.prodDone = true → s.prodRows = []) ∧
    sentCount s.queue ≤ 1 ∧
    (∀ i loc out w' q' db' dels,
      s.workers.get? i = some (.alive loc) →
      worker_iter args headers loc s.event out s.queue s.db
        = .step w' q' db' dels →
      sentCount q' ≤ sentCount s.queue ∧
      (w' = .terminated → 1 ≤ sentCount q')) ∧
    (QItem.sent ∈ s.queue →
      ∀ i loc, s.workers.get? i = some (.alive loc) →
        ∃ out w' q' db' dels,
          worker_iter args headers loc s.event out s.queue s.db
            = .step w' q' db' dels) := by
  have hS : Relation.ReflTransGen (Step args headers) (initState rows n db0) s :=
    Relation.ReflTransGen.mono (fun _ _ hh => hh.1) h
  have hinv := step_invariant args headers hbs rows n db0 s hS
  have hnc := stepNC_invariant args headers rows n db0 s h
  refine ⟨hnc.1, hinv.2.2.2, hnc.2, hinv.2.2.1, ?_, ?_⟩
  · intro i loc out w' q' db' dels hget hw
    have hmem : WStatus.alive loc ∈ s.workers := List.get?_mem hget
    have hfin := hinv.1 _ hmem loc rfl
    have hws := worker_iter_sentinel args headers loc s.event out s.queue s.db
      w' q' db' dels hbs hfin hw
    exact ⟨hws.1, hws.2.2 hnc.1⟩
  · intro hq i loc _
    exact worker_iter_exists_step args headers loc s.event s.queue s.db hq

/-- Witness for `sentinel_protocol_no_cancel` at the initial state. -/
theorem sentinel_protocol_no_cancel_witness :
    sentCount (initState [] 1 ([] : DB)).queue ≤ 1 :=
  (sentinel_protocol_no_cancel args0 ["document_number", "title"] (by decide)
    [] 1 [] (initState [] 1 []) Relation.ReflTransGen.refl).2.2.2.1

/-! The C8 counterexample run: one row, two workers, cancellation after
the producer finished. -/

def c8args : Args :=
  { args0 with batch_size := 2, num_threads := 2 }

def c8headers : List String := ["document_number", "title"]

def c8init : SysState := initState [["a1", "t"]] 2 []

def c8s1 : SysState :=
  ⟨[], false, 0, false, [QItem.row ["a1", "t"]],
   List.replicate 2 (WStatus.alive ⟨none, none⟩), [], []⟩

def c8s2 : SysState :=
  ⟨[], true, 1, false, [QItem.row ["a1", "t"], QItem.sent],
   List.replicate 2 (WStatus.alive ⟨none, none⟩), [], []⟩

def c8s3 : SysState :=
  ⟨[], true, 1, true, [QItem.row ["a1", "t"], QItem.sent],
   List.replicate 2 (WStatus.alive ⟨none, none⟩), [], []⟩

def c8final : SysState :=
  ⟨[], true, 1, true, [],
   [WStatus.terminated, WStatus.alive ⟨none, none⟩],
   [("a1", ⟨false, 1, "boom"⟩)], []⟩

/-- C8 counterexample: after cancellation, worker 0 dequeues the row and
the marker, fails its batch (api error), and — because the event is set —
drains the queue and terminates *without* re-enqueueing the marker.  In
the resulting reachable state the producer has enqueued the marker exactly
once, no copy of it remains anywhere, worker 1 is still alive, never
observed the marker, and every pass it could attempt blocks forever on the
empty queue — contradicting the claim that any worker that dequeues the
marker re-enqueues it before terminating so that every other worker
eventually observes it. -/
theorem sentinel_lost_on_cancellation :
    Relation.ReflTransGen (Step c8args c8headers) c8init c8final ∧
    c8final.sentPuts = 1 ∧
    sentCount c8final.queue = 0 ∧
    c8final.workers.get? 0 = some WStatus.terminated ∧
    c8final.workers.get? 1 = some (WStatus.alive ⟨none, none⟩) ∧
    (∀ (loc : WLocals) (out : Outcomes),
      worker_iter c8args c8headers loc c8final.event out c8final.queue c8final.db
        = .blocked) := by
  refine ⟨?_, rfl, rfl, rfl, rfl, fun loc out => rfl⟩
  have h1 : Step c8args c8headers c8init c8s1 :=
    Step.prodRow c8init ["a1", "t"] [] rfl rfl rfl (by decide)
  have h2 : Step c8args c8headers c8s1 c8s2 :=
    Step.prodSent c8s1 rfl (Or.inl rfl) (by decide)
  have h3 : Step c8args c8headers c8s2 c8s3 :=
    Step.cancel c8s2
  have h4 : Step c8args c8headers c8s3 c8final :=
    Step.work c8s3 0 ⟨none, none⟩ ⟨.error (.api "boom"), [], .ok ()⟩
      .terminated [] [("a1", ⟨false, 1, "boom"⟩)] [] rfl rfl
  exact Relation.ReflTransGen.tail
    (Relation.ReflTransGen.tail
      (Relation.ReflTransGen.tail
        (Relation.ReflTransGen.tail Relation.ReflTransGen.refl h1) h2) h3) h4

end BatchUpload
